import Mathlib

set_option linter.unusedVariables false

/-!
Shallow embedding of the account state-transition engine of
`src/primitives/account/src/accounts.rs` (Nimiq Albatross core).

The engine applies a block's transactions and inherents to a
Merkle-committed account set and can reverse that application given the
receipts.  The underlying trie, the storage environment and the concrete
account variants are external collaborators; they are modelled here from
the interface the spec gives for them (each such definition says so in
its doc comment).  Machine integers are modelled as `Nat` with explicit
`% 65536` where the source casts `usize` to `u16`.

Stateful Rust code (`&mut WriteTransaction`) is embedded by explicit
state passing: every engine function takes the transaction's trie state
and returns it next to the result, including on the error path (a Rust
`?` early-return leaves the writes already made in the transaction).
-/

/-- Modelled from the spec: account-type tags ("basic, vesting, staking,
contract-kind variants").  The engine only compares tags for equality.
The concrete `AccountType` enum is outside this repository slice. -/
inductive AccountType where
  | basic
  | vesting
  | htlc
  | staking
deriving DecidableEq, Repr

/-- Modelled from the spec: a polymorphic account value.  "Every variant
carries at minimum a balance"; `extra` stands for the variant-specific
state (vesting schedule, contract data, ...), opaque to the engine.  The
concrete `Account` enum is outside this repository slice. -/
structure Account where
  type : AccountType
  balance : Nat
  extra : List Nat
deriving DecidableEq, Repr

/-- Modelled from the spec: `new_basic(balance)` constructs a plain basic
account with the given balance and no variant-specific state. -/
def Account.new_basic (balance : Nat) : Account :=
  { type := AccountType.basic, balance := balance, extra := [] }

/-- `account_type()` of an account. -/
def Account.account_type (a : Account) : AccountType := a.type

/-- Modelled from the spec: the error taxonomy.  The engine itself only
constructs `typeMismatch { expected, got }`; account-variant-specific
errors (insufficient funds, invalid receipt, ...) are surfaced verbatim
and are represented by the opaque `other` code. -/
inductive AccountError where
  | typeMismatch (expected got : AccountType)
  | other (code : Nat)
deriving DecidableEq, Repr

/-- Modelled from the spec: a trie address.  "KeyNibbles" is a canonical
deterministic encoding of an account address and two addresses never
alias, so the key is modelled as the address itself. -/
abbrev Address := Nat

/-- Modelled from the spec: transaction input data as the engine sees it —
sender address and claimed sender type, recipient address and claimed
recipient type, a flag set (notably CONTRACT_CREATION), value, opaque
payload.  The concrete `Transaction` struct is outside this slice. -/
structure Transaction where
  sender : Address
  sender_type : AccountType
  recipient : Address
  recipient_type : AccountType
  value : Nat
  contract_creation : Bool
  data : List Nat
deriving DecidableEq, Repr

/-- `transaction.flags.contains(TransactionFlags::CONTRACT_CREATION)`. -/
def Transaction.flags_contract_creation (tx : Transaction) : Bool :=
  tx.contract_creation

/-- Modelled from the spec: an inherent — a target address, an opaque
payload, and a `pre_transactions` selector. -/
structure Inherent where
  target : Address
  pre : Bool
  data : List Nat
deriving DecidableEq, Repr

/-- `Inherent::is_pre_transactions`. -/
def Inherent.is_pre_transactions (i : Inherent) : Bool := i.pre

/-- The `Receipt` enum: `Transaction { index: u16, sender, data }` or
`Inherent { index: u16, pre_transactions, data }`.  The `u16` index is a
`Nat`; the engine stores it as `position % 65536` where the source casts
with `as u16`. -/
inductive Receipt where
  | transaction (index : Nat) (sender : Bool) (data : List Nat)
  | inherent (index : Nat) (pre_transactions : Bool) (data : List Nat)
deriving DecidableEq, Repr

/-- The `Receipts` collection: an ordered list of receipts (the source's
`Receipts` wraps a `Vec<Receipt>`). -/
structure Receipts where
  receipts : List Receipt
deriving DecidableEq, Repr

/-- `type ReceiptsMap<'a> = HashMap<u16, &'a Vec<u8>>`, modelled as a
function from keys to optional data. -/
def ReceiptsMap := Nat → Option (List Nat)

/-- `HashMap::new()`. -/
def ReceiptsMap.empty : ReceiptsMap := fun _ => none

/-- `HashMap::insert` — a later insert at the same key overwrites. -/
def ReceiptsMap.insert (m : ReceiptsMap) (k : Nat) (v : List Nat) : ReceiptsMap :=
  fun k' => if k' = k then some v else m k'

/-- `HashMap::remove` — returns the value at the key (if any) and the map
with that key absent. -/
def ReceiptsMap.remove (m : ReceiptsMap) (k : Nat) : Option (List Nat) × ReceiptsMap :=
  (m k, fun k' => if k' = k then none else m k')

/-- Modelled from the spec: the accounts trie restricted to the interface
the engine consumes — `get` and `put_batch` keyed by address, reads
seeing earlier writes of the same transaction.  A key never written holds
the synthesized default ("an account that does not yet exist at a key
[is] synthesized on first touch"), i.e. a basic account with balance 0,
so the trie is a total map from addresses to accounts. -/
def Trie := Address → Account

/-- `tree.get(txn, key)` (missing accounts synthesized as basic/0). -/
def Trie.get (t : Trie) (k : Address) : Account := t k

/-- `tree.put_batch(txn, key, account)`; visible to subsequent reads in
the same transaction. -/
def Trie.put_batch (t : Trie) (k : Address) (a : Account) : Trie :=
  fun k' => if k' = k then a else t k'

/-- Modelled from the spec: the account capability interface (§4.1) —
the per-variant commit/revert methods and the contract constructor.  The
engine is polymorphic over this collaborator; the concrete variant logic
is outside this repository slice.  `&mut self` mutation is modelled by
returning the updated account. -/
structure AccountOps where
  commit_incoming_transaction :
    Account → Transaction → Nat → Nat → Except AccountError (Account × Option (List Nat))
  revert_incoming_transaction :
    Account → Transaction → Nat → Nat → Option (List Nat) → Except AccountError Account
  commit_outgoing_transaction :
    Account → Transaction → Nat → Nat → Except AccountError (Account × Option (List Nat))
  revert_outgoing_transaction :
    Account → Transaction → Nat → Nat → Option (List Nat) → Except AccountError Account
  commit_inherent :
    Account → Inherent → Nat → Nat → Except AccountError (Account × Option (List Nat))
  revert_inherent :
    Account → Inherent → Nat → Nat → Option (List Nat) → Except AccountError Account
  new_contract :
    AccountType → Nat → Transaction → Nat → Nat → Except AccountError Account

/-- The shape of the `account_op` closures passed to
`process_senders`/`process_recipients`:
`Fn(&mut Account, &Transaction, u32, Option<&Vec<u8>>)
   -> Result<Option<Vec<u8>>, AccountError>`. -/
def TxOp := Account → Transaction → Nat → Option (List Nat) →
  Except AccountError (Account × Option (List Nat))

/-- The shape of the `account_op` closures passed to `process_inherents`:
`Fn(&mut Account, &Inherent, Option<&Vec<u8>>)
   -> Result<Option<Vec<u8>>, AccountError>`. -/
def InhOp := Account → Inherent → Option (List Nat) →
  Except AccountError (Account × Option (List Nat))

/-- The closure `commit` passes to `process_senders`: calls
`Account::commit_outgoing_transaction` and ignores the receipt slot. -/
def commitSenderOp (ops : AccountOps) (timestamp : Nat) : TxOp :=
  fun account transaction block_height _receipt =>
    ops.commit_outgoing_transaction account transaction block_height timestamp

/-- The closure `revert` passes to `process_senders`: calls
`account.revert_outgoing_transaction(...).map(|_| None)`. -/
def revertSenderOp (ops : AccountOps) (timestamp : Nat) : TxOp :=
  fun account transaction block_height receipt =>
    (ops.revert_outgoing_transaction account transaction block_height timestamp receipt).map
      (fun a => (a, none))

/-- The closure `commit` passes to `process_recipients`: calls
`Account::commit_incoming_transaction` and ignores the receipt slot. -/
def commitRecipientOp (ops : AccountOps) (timestamp : Nat) : TxOp :=
  fun account transaction block_height _receipt =>
    ops.commit_incoming_transaction account transaction block_height timestamp

/-- The closure `revert` passes to `process_recipients`: calls
`account.revert_incoming_transaction(...).map(|_| None)`. -/
def revertRecipientOp (ops : AccountOps) (timestamp : Nat) : TxOp :=
  fun account transaction block_height receipt =>
    (ops.revert_incoming_transaction account transaction block_height timestamp receipt).map
      (fun a => (a, none))

/-- The closure `commit` passes to `process_inherents`: calls
`Account::commit_inherent` and ignores the receipt slot. -/
def commitInherentOp (ops : AccountOps) (block_height timestamp : Nat) : InhOp :=
  fun account inherent _receipt =>
    ops.commit_inherent account inherent block_height timestamp

/-- The closure `revert` passes to `process_inherents`: calls
`account.revert_inherent(...).map(|_| None)`. -/
def revertInherentOp (ops : AccountOps) (block_height timestamp : Nat) : InhOp :=
  fun account inherent receipt =>
    (ops.revert_inherent account inherent block_height timestamp receipt).map
      (fun a => (a, none))

/-- The shared tail of `Accounts::process_transaction` after the type
check: apply the `account_op`, and only on success write the (possibly
mutated) account back with `put_batch`. -/
def Accounts.apply_transaction_op (account_op : TxOp) (t : Trie) (address : Address)
    (account : Account) (transaction : Transaction) (block_height : Nat)
    (receipt : Option (List Nat)) :
    Except AccountError (Option (List Nat)) × Trie :=
  match account_op account transaction block_height receipt with
  | Except.error e => (Except.error e, t)
  | Except.ok (account, r) => (Except.ok r, t.put_batch address account)

/-- `Accounts::process_transaction`: read the account at `address`,
check the stored account type against the claimed one when `account_type`
is `Some`, then apply the operation and write back on success.  On error
the trie is returned unchanged by this call. -/
def Accounts.process_transaction (account_op : TxOp) (t : Trie) (address : Address)
    (account_type : Option AccountType) (transaction : Transaction)
    (block_height : Nat) (receipt : Option (List Nat)) :
    Except AccountError (Option (List Nat)) × Trie :=
  let account := t.get address
  match account_type with
  | some ty =>
      if account.account_type = ty then
        Accounts.apply_transaction_op account_op t address account transaction block_height receipt
      else
        (Except.error (AccountError.typeMismatch account.account_type ty), t)
  | none =>
      Accounts.apply_transaction_op account_op t address account transaction block_height receipt

/-- The loop body of `Accounts::process_senders`: enumerate the
transactions from position `index`, for each one consume the receipt at
key `index as u16` from the map, process the sender side
(type-checked against `transaction.sender_type`), and collect a
`Receipt::Transaction { index: index as u16, sender: true, data }` for
every operation that returns data.  An error stops the loop and returns
the trie as mutated so far. -/
def Accounts.process_senders_go (account_op : TxOp) (block_height : Nat) :
    Trie → List Transaction → Nat → ReceiptsMap →
    Except AccountError (List Receipt) × Trie
  | t, [], _, _ => (Except.ok [], t)
  | t, transaction :: rest, index, receipts =>
      let rr := receipts.remove (index % 65536)
      match Accounts.process_transaction account_op t transaction.sender
          (some transaction.sender_type) transaction block_height rr.1 with
      | (Except.error e, t') => (Except.error e, t')
      | (Except.ok data?, t') =>
          match Accounts.process_senders_go account_op block_height t' rest (index + 1) rr.2 with
          | (Except.error e, t'') => (Except.error e, t'')
          | (Except.ok new_receipts, t'') =>
              match data? with
              | some data =>
                  (Except.ok (Receipt.transaction (index % 65536) true data :: new_receipts), t'')
              | none => (Except.ok new_receipts, t'')

/-- `Accounts::process_senders`. -/
def Accounts.process_senders (account_op : TxOp) (t : Trie)
    (transactions : List Transaction) (block_height timestamp : Nat)
    (receipts : ReceiptsMap) : Except AccountError (List Receipt) × Trie :=
  Accounts.process_senders_go account_op block_height t transactions 0 receipts

/-- The loop body of `Accounts::process_recipients`: as for senders, but
addressed to `transaction.recipient`; the type check against
`transaction.recipient_type` is skipped (the `account_type` argument is
`None`) when the transaction carries the CONTRACT_CREATION flag, in both
the commit and the revert direction.  Receipts carry `sender: false`. -/
def Accounts.process_recipients_go (account_op : TxOp) (block_height : Nat) :
    Trie → List Transaction → Nat → ReceiptsMap →
    Except AccountError (List Receipt) × Trie
  | t, [], _, _ => (Except.ok [], t)
  | t, transaction :: rest, index, receipts =>
      let recipient_type : Option AccountType :=
        if transaction.flags_contract_creation then none else some transaction.recipient_type
      let rr := receipts.remove (index % 65536)
      match Accounts.process_transaction account_op t transaction.recipient
          recipient_type transaction block_height rr.1 with
      | (Except.error e, t') => (Except.error e, t')
      | (Except.ok data?, t') =>
          match Accounts.process_recipients_go account_op block_height t' rest (index + 1) rr.2 with
          | (Except.error e, t'') => (Except.error e, t'')
          | (Except.ok new_receipts, t'') =>
              match data? with
              | some data =>
                  (Except.ok (Receipt.transaction (index % 65536) false data :: new_receipts), t'')
              | none => (Except.ok new_receipts, t'')

/-- `Accounts::process_recipients`. -/
def Accounts.process_recipients (account_op : TxOp) (t : Trie)
    (transactions : List Transaction) (block_height timestamp : Nat)
    (receipts : ReceiptsMap) : Except AccountError (List Receipt) × Trie :=
  Accounts.process_recipients_go account_op block_height t transactions 0 receipts

/-- `Accounts::process_inherent`: read the target account, apply the
operation (no type check), write back on success. -/
def Accounts.process_inherent (account_op : InhOp) (t : Trie) (inherent : Inherent)
    (receipt : Option (List Nat)) :
    Except AccountError (Option (List Nat)) × Trie :=
  let account := t.get inherent.target
  match account_op account inherent receipt with
  | Except.error e => (Except.error e, t)
  | Except.ok (account, r) => (Except.ok r, t.put_batch inherent.target account)

/-- The loop body of `Accounts::process_inherents`: enumerate the (already
filtered) inherents, consume the receipt at key `index as u16`, process
each target, and collect a
`Receipt::Inherent { index, pre_transactions, data }` for every
operation that returns data. -/
def Accounts.process_inherents_go (account_op : InhOp) :
    Trie → List Inherent → Nat → ReceiptsMap →
    Except AccountError (List Receipt) × Trie
  | t, [], _, _ => (Except.ok [], t)
  | t, inherent :: rest, index, receipts =>
      let rr := receipts.remove (index % 65536)
      match Accounts.process_inherent account_op t inherent rr.1 with
      | (Except.error e, t') => (Except.error e, t')
      | (Except.ok data?, t') =>
          match Accounts.process_inherents_go account_op t' rest (index + 1) rr.2 with
          | (Except.error e, t'') => (Except.error e, t'')
          | (Except.ok new_receipts, t'') =>
              match data? with
              | some data =>
                  (Except.ok
                    (Receipt.inherent (index % 65536) inherent.is_pre_transactions data ::
                      new_receipts), t'')
              | none => (Except.ok new_receipts, t'')

/-- `Accounts::process_inherents`. -/
def Accounts.process_inherents (account_op : InhOp) (t : Trie)
    (inherents : List Inherent) (receipts : ReceiptsMap) :
    Except AccountError (List Receipt) × Trie :=
  Accounts.process_inherents_go account_op t inherents 0 receipts

/-- `Accounts::create_contract` (callers guarantee the CONTRACT_CREATION
flag, asserted in the source): read the recipient account, construct a
fresh contract account of the claimed recipient type carrying the prior
account's balance, and replace the account at the recipient key with it.
No receipt is produced. -/
def Accounts.create_contract (ops : AccountOps) (t : Trie) (transaction : Transaction)
    (block_height timestamp : Nat) : Except AccountError Unit × Trie :=
  let recipient_account := t.get transaction.recipient
  match ops.new_contract transaction.recipient_type recipient_account.balance transaction
      block_height timestamp with
  | Except.error e => (Except.error e, t)
  | Except.ok new_recipient_account =>
      (Except.ok (), t.put_batch transaction.recipient new_recipient_account)

/-- `Accounts::create_contracts`: run `create_contract` for every
transaction flagged CONTRACT_CREATION, in order, stopping at the first
error. -/
def Accounts.create_contracts (ops : AccountOps) :
    Trie → List Transaction → Nat → Nat → Except AccountError Unit × Trie
  | t, [], _, _ => (Except.ok (), t)
  | t, transaction :: rest, block_height, timestamp =>
      if transaction.flags_contract_creation then
        match Accounts.create_contract ops t transaction block_height timestamp with
        | (Except.error e, t') => (Except.error e, t')
        | (Except.ok _, t') => Accounts.create_contracts ops t' rest block_height timestamp
      else
        Accounts.create_contracts ops t rest block_height timestamp

/-- `Accounts::revert_contract` (callers guarantee the CONTRACT_CREATION
flag): check that the current recipient account's type equals the claimed
`recipient_type` (error `TypeMismatch` otherwise), then replace it with a
basic account carrying the same balance. -/
def Accounts.revert_contract (ops : AccountOps) (t : Trie) (transaction : Transaction)
    (block_height timestamp : Nat) : Except AccountError Unit × Trie :=
  let recipient_account := t.get transaction.recipient
  if recipient_account.account_type = transaction.recipient_type then
    (Except.ok (),
      t.put_batch transaction.recipient (Account.new_basic recipient_account.balance))
  else
    (Except.error
      (AccountError.typeMismatch recipient_account.account_type transaction.recipient_type), t)

/-- `Accounts::revert_contracts`: run `revert_contract` for every
transaction flagged CONTRACT_CREATION, in order, stopping at the first
error. -/
def Accounts.revert_contracts (ops : AccountOps) :
    Trie → List Transaction → Nat → Nat → Except AccountError Unit × Trie
  | t, [], _, _ => (Except.ok (), t)
  | t, transaction :: rest, block_height, timestamp =>
      if transaction.flags_contract_creation then
        match Accounts.revert_contract ops t transaction block_height timestamp with
        | (Except.error e, t') => (Except.error e, t')
        | (Except.ok _, t') => Accounts.revert_contracts ops t' rest block_height timestamp
      else
        Accounts.revert_contracts ops t rest block_height timestamp

/-- The body of the `for receipt in &receipts.receipts` loop of
`Accounts::prepare_receipts`: insert one receipt into the map selected
by its tag and flag. -/
def Accounts.prepare_receipts_step
    (maps : ReceiptsMap × ReceiptsMap × ReceiptsMap × ReceiptsMap) (r : Receipt) :
    ReceiptsMap × ReceiptsMap × ReceiptsMap × ReceiptsMap :=
  match r, maps with
  | Receipt.transaction index sender data, (s, rc, pre, post) =>
      if sender then (s.insert index data, rc, pre, post)
      else (s, rc.insert index data, pre, post)
  | Receipt.inherent index pre_transactions data, (s, rc, pre, post) =>
      if pre_transactions then (s, rc, pre.insert index data, post)
      else (s, rc, pre, post.insert index data)

/-- `Accounts::prepare_receipts`: partition the receipt bag into four
maps keyed by index — sender-transaction, recipient-transaction,
pre-transaction-inherent and post-transaction-inherent receipts — by a
fold inserting in list order (a later duplicate key overwrites). -/
def Accounts.prepare_receipts (receipts : Receipts) :
    ReceiptsMap × ReceiptsMap × ReceiptsMap × ReceiptsMap :=
  receipts.receipts.foldl Accounts.prepare_receipts_step
    (ReceiptsMap.empty, ReceiptsMap.empty, ReceiptsMap.empty, ReceiptsMap.empty)

/-- `Accounts::commit`: the five-phase pipeline — pre-transaction
inherents, sender processing, recipient processing, contract creation,
post-transaction inherents — appending the receipts of the
receipt-producing phases in that order.  Any phase error is returned
immediately, together with the transaction state as mutated so far. -/
def Accounts.commit (ops : AccountOps) (t : Trie) (transactions : List Transaction)
    (inherents : List Inherent) (block_height timestamp : Nat) :
    Except AccountError Receipts × Trie :=
  match Accounts.process_inherents (commitInherentOp ops block_height timestamp) t
      (inherents.filter (fun i => i.is_pre_transactions)) ReceiptsMap.empty with
  | (Except.error e, t1) => (Except.error e, t1)
  | (Except.ok r1, t1) =>
  match Accounts.process_senders (commitSenderOp ops timestamp) t1 transactions
      block_height timestamp ReceiptsMap.empty with
  | (Except.error e, t2) => (Except.error e, t2)
  | (Except.ok r2, t2) =>
  match Accounts.process_recipients (commitRecipientOp ops timestamp) t2 transactions
      block_height timestamp ReceiptsMap.empty with
  | (Except.error e, t3) => (Except.error e, t3)
  | (Except.ok r3, t3) =>
  match Accounts.create_contracts ops t3 transactions block_height timestamp with
  | (Except.error e, t4) => (Except.error e, t4)
  | (Except.ok _, t4) =>
  match Accounts.process_inherents (commitInherentOp ops block_height timestamp) t4
      (inherents.filter (fun i => ¬ i.is_pre_transactions)) ReceiptsMap.empty with
  | (Except.error e, t5) => (Except.error e, t5)
  | (Except.ok r4, t5) => (Except.ok (Receipts.mk (r1 ++ r2 ++ r3 ++ r4)), t5)

/-- `Accounts::revert`: partition the receipts, then run the mirror
steps in reverse order — post-transaction inherents, contract reversal,
recipient revert, sender revert, pre-transaction inherents. -/
def Accounts.revert (ops : AccountOps) (t : Trie) (transactions : List Transaction)
    (inherents : List Inherent) (block_height timestamp : Nat) (receipts : Receipts) :
    Except AccountError Unit × Trie :=
  let maps := Accounts.prepare_receipts receipts
  let sender_receipts := maps.1
  let recipient_receipts := maps.2.1
  let pre_tx_inherent_receipts := maps.2.2.1
  let post_tx_inherent_receipts := maps.2.2.2
  match Accounts.process_inherents (revertInherentOp ops block_height timestamp) t
      (inherents.filter (fun i => ¬ i.is_pre_transactions)) post_tx_inherent_receipts with
  | (Except.error e, t1) => (Except.error e, t1)
  | (Except.ok _, t1) =>
  match Accounts.revert_contracts ops t1 transactions block_height timestamp with
  | (Except.error e, t2) => (Except.error e, t2)
  | (Except.ok _, t2) =>
  match Accounts.process_recipients (revertRecipientOp ops timestamp) t2 transactions
      block_height timestamp recipient_receipts with
  | (Except.error e, t3) => (Except.error e, t3)
  | (Except.ok _, t3) =>
  match Accounts.process_senders (revertSenderOp ops timestamp) t3 transactions
      block_height timestamp sender_receipts with
  | (Except.error e, t4) => (Except.error e, t4)
  | (Except.ok _, t4) =>
  match Accounts.process_inherents (revertInherentOp ops block_height timestamp) t4
      (inherents.filter (fun i => i.is_pre_transactions)) pre_tx_inherent_receipts with
  | (Except.error e, t5) => (Except.error e, t5)
  | (Except.ok _, t5) => (Except.ok (), t5)

/-- `Accounts::get_root`.  Modelled from the spec: `root_hash(txn)` is a
pure, deterministic function of the full set of (key, account) pairs
visible in the transaction, collision-free across the states a node must
distinguish ("used to prove agreement on state without transmitting
it"); the trie's internal hashing algorithm is external to this core, so
the commitment is modelled as the state content itself. -/
def Accounts.get_root (t : Trie) : Trie := t

/-- `Accounts::init`: seed the trie from genesis (key, account) pairs
within an open write transaction. -/
def Accounts.init : Trie → List (Address × Account) → Trie
  | t, [] => t
  | t, (key, account) :: rest => Accounts.init (t.put_batch key account) rest

/-- `Accounts::get_root_with`: open a fresh write transaction over the
durable state, `commit` inside it, read the resulting root hash, then
abort the transaction.  The durable state is returned unchanged next to
the result (on the error path the transaction is dropped un-persisted as
well). -/
def Accounts.get_root_with (ops : AccountOps) (durable : Trie)
    (transactions : List Transaction) (inherents : List Inherent)
    (block_height timestamp : Nat) : Except AccountError Trie × Trie :=
  match Accounts.commit ops durable transactions inherents block_height timestamp with
  | (Except.error e, _txn) => (Except.error e, durable)
  | (Except.ok _receipts, txn) => (Except.ok (Accounts.get_root txn), durable)

/-! ### Basic trie and receipt-map lemmas -/

theorem Trie.put_batch_same (t : Trie) (k : Address) (a : Account) :
    (t.put_batch k a) k = a := by
  simp [Trie.put_batch]

theorem Trie.put_batch_ne (t : Trie) (k : Address) (a : Account) (k' : Address)
    (h : k' ≠ k) : (t.put_batch k a) k' = t k' := by
  simp [Trie.put_batch, h]

/-- The trie a state writes through `put_batch` only differs from the
original at the written key. -/
theorem Trie.get_put_batch (t : Trie) (k : Address) (a : Account) (k' : Address) :
    (t.put_batch k a) k' = if k' = k then a else t k' := rfl

/-- A map every lookup of which agrees with another also removes to
agreeing maps. -/
theorem ReceiptsMap.remove_fst (m : ReceiptsMap) (k : Nat) :
    (m.remove k).1 = m k := rfl

theorem ReceiptsMap.remove_snd_same (m : ReceiptsMap) (k : Nat) :
    (m.remove k).2 k = none := by
  simp [ReceiptsMap.remove]

theorem ReceiptsMap.remove_snd_ne (m : ReceiptsMap) (k k' : Nat) (h : k' ≠ k) :
    (m.remove k).2 k' = m k' := by
  simp [ReceiptsMap.remove, h]


/-! ### Success/error characterization of a single operation -/

/-- Characterization of a successful `process_transaction`: the type
check (if requested) passed on the stored account, the operation was
applied to it, and the mutated account was written back. -/
theorem Accounts.process_transaction_ok (account_op : TxOp) (t : Trie) (address : Address)
    (account_type : Option AccountType) (transaction : Transaction) (block_height : Nat)
    (receipt : Option (List Nat)) (data? : Option (List Nat)) (t' : Trie)
    (h : Accounts.process_transaction account_op t address account_type transaction
      block_height receipt = (Except.ok data?, t')) :
    (∀ ty, account_type = some ty → (t address).account_type = ty) ∧
    ∃ a', account_op (t address) transaction block_height receipt = Except.ok (a', data?) ∧
      t' = t.put_batch address a' := by
  rcases hop : account_op (t address) transaction block_height receipt with e | ⟨a', d⟩
  · cases account_type with
    | none =>
        simp only [Accounts.process_transaction, Accounts.apply_transaction_op, Trie.get,
          hop, Prod.mk.injEq] at h
        exact absurd h.1 (by simp)
    | some ty =>
        simp only [Accounts.process_transaction, Trie.get] at h
        by_cases hty : (t address).account_type = ty
        · rw [if_pos hty] at h
          simp only [Accounts.apply_transaction_op, hop, Prod.mk.injEq] at h
          exact absurd h.1 (by simp)
        · rw [if_neg hty] at h
          simp only [Prod.mk.injEq] at h
          exact absurd h.1 (by simp)
  · cases account_type with
    | none =>
        simp only [Accounts.process_transaction, Accounts.apply_transaction_op, Trie.get,
          hop, Prod.mk.injEq, Except.ok.injEq] at h
        obtain ⟨h1, h2⟩ := h
        subst h1
        exact ⟨by simp, a', rfl, h2.symm⟩
    | some ty =>
        simp only [Accounts.process_transaction, Trie.get] at h
        by_cases hty : (t address).account_type = ty
        · rw [if_pos hty] at h
          simp only [Accounts.apply_transaction_op, hop, Prod.mk.injEq,
            Except.ok.injEq] at h
          obtain ⟨h1, h2⟩ := h
          subst h1
          exact ⟨by intro ty' h'; cases h'; exact hty, a', rfl, h2.symm⟩
        · rw [if_neg hty] at h
          simp only [Prod.mk.injEq] at h
          exact absurd h.1 (by simp)

/-- Introduction form: running `process_transaction` when the type check
passes and the operation succeeds. -/
theorem Accounts.process_transaction_eq_ok (account_op : TxOp) (t : Trie) (address : Address)
    (account_type : Option AccountType) (transaction : Transaction) (block_height : Nat)
    (receipt : Option (List Nat)) (a' : Account) (data? : Option (List Nat))
    (hty : ∀ ty, account_type = some ty → (t address).account_type = ty)
    (hop : account_op (t address) transaction block_height receipt = Except.ok (a', data?)) :
    Accounts.process_transaction account_op t address account_type transaction
      block_height receipt = (Except.ok data?, t.put_batch address a') := by
  cases account_type with
  | none => simp only [Accounts.process_transaction, Accounts.apply_transaction_op,
      Trie.get, hop]
  | some ty =>
      have h1 : (t address).account_type = ty := hty ty rfl
      simp only [Accounts.process_transaction, Accounts.apply_transaction_op, Trie.get,
        h1, if_true, hop]

/-- If the account operation itself fails, `process_transaction` returns
that error and leaves the trie untouched (the write-back is skipped). -/
theorem Accounts.process_transaction_op_error (account_op : TxOp) (t : Trie)
    (address : Address) (account_type : Option AccountType) (transaction : Transaction)
    (block_height : Nat) (receipt : Option (List Nat)) (e : AccountError)
    (hty : ∀ ty, account_type = some ty → (t address).account_type = ty)
    (hop : account_op (t address) transaction block_height receipt = Except.error e) :
    Accounts.process_transaction account_op t address account_type transaction
      block_height receipt = (Except.error e, t) := by
  cases account_type with
  | none => simp only [Accounts.process_transaction, Accounts.apply_transaction_op,
      Trie.get, hop]
  | some ty =>
      have h1 : (t address).account_type = ty := hty ty rfl
      simp only [Accounts.process_transaction, Accounts.apply_transaction_op, Trie.get,
        h1, if_true, hop]

/-- A failed sender/recipient type check returns `TypeMismatch` with the
stored type as `expected` and the claimed type as `got`, without invoking
the operation and without touching the trie. -/
theorem Accounts.process_transaction_type_mismatch (account_op : TxOp) (t : Trie)
    (address : Address) (ty : AccountType) (transaction : Transaction)
    (block_height : Nat) (receipt : Option (List Nat))
    (hty : (t address).account_type ≠ ty) :
    Accounts.process_transaction account_op t address (some ty) transaction
      block_height receipt =
      (Except.error (AccountError.typeMismatch (t address).account_type ty), t) := by
  simp only [Accounts.process_transaction, Trie.get, hty, if_false]

/-- Characterization of a successful `process_inherent` (no type check). -/
theorem Accounts.process_inherent_ok (account_op : InhOp) (t : Trie) (inherent : Inherent)
    (receipt : Option (List Nat)) (data? : Option (List Nat)) (t' : Trie)
    (h : Accounts.process_inherent account_op t inherent receipt = (Except.ok data?, t')) :
    ∃ a', account_op (t inherent.target) inherent receipt = Except.ok (a', data?) ∧
      t' = t.put_batch inherent.target a' := by
  rcases hop : account_op (t inherent.target) inherent receipt with e | ⟨a', d⟩
  · simp only [Accounts.process_inherent, Trie.get, hop, Prod.mk.injEq] at h
    exact absurd h.1 (by simp)
  · simp only [Accounts.process_inherent, Trie.get, hop, Prod.mk.injEq,
      Except.ok.injEq] at h
    obtain ⟨h1, h2⟩ := h
    subst h1
    exact ⟨a', rfl, h2.symm⟩

theorem Accounts.process_inherent_eq_ok (account_op : InhOp) (t : Trie) (inherent : Inherent)
    (receipt : Option (List Nat)) (a' : Account) (data? : Option (List Nat))
    (hop : account_op (t inherent.target) inherent receipt = Except.ok (a', data?)) :
    Accounts.process_inherent account_op t inherent receipt =
      (Except.ok data?, t.put_batch inherent.target a') := by
  simp only [Accounts.process_inherent, Trie.get, hop]

theorem Accounts.process_inherent_op_error (account_op : InhOp) (t : Trie)
    (inherent : Inherent) (receipt : Option (List Nat)) (e : AccountError)
    (hop : account_op (t inherent.target) inherent receipt = Except.error e) :
    Accounts.process_inherent account_op t inherent receipt = (Except.error e, t) := by
  simp only [Accounts.process_inherent, Trie.get, hop]

/-- An erroring `process_transaction` (type check or operation failure)
returns the trie unchanged. -/
theorem Accounts.process_transaction_error (account_op : TxOp) (t : Trie) (address : Address)
    (account_type : Option AccountType) (transaction : Transaction) (block_height : Nat)
    (receipt : Option (List Nat)) (e : AccountError) (t' : Trie)
    (h : Accounts.process_transaction account_op t address account_type transaction
      block_height receipt = (Except.error e, t')) : t' = t := by
  cases account_type with
  | none =>
      simp only [Accounts.process_transaction, Accounts.apply_transaction_op, Trie.get] at h
      rcases hop : account_op (t address) transaction block_height receipt with e' | ⟨a', d⟩ <;>
        rw [hop] at h <;> simp only [Prod.mk.injEq] at h
      · exact h.2.symm
      · exact absurd h.1 (by simp)
  | some ty =>
      simp only [Accounts.process_transaction, Trie.get] at h
      by_cases hty : (t address).account_type = ty
      · rw [if_pos hty] at h
        simp only [Accounts.apply_transaction_op] at h
        rcases hop : account_op (t address) transaction block_height receipt with e' | ⟨a', d⟩ <;>
          rw [hop] at h <;> simp only [Prod.mk.injEq] at h
        · exact h.2.symm
        · exact absurd h.1 (by simp)
      · rw [if_neg hty] at h
        simp only [Prod.mk.injEq] at h
        exact h.2.symm

/-- `process_transaction` only ever writes at `address`. -/
theorem Accounts.process_transaction_frame (account_op : TxOp) (t : Trie) (address : Address)
    (account_type : Option AccountType) (transaction : Transaction) (block_height : Nat)
    (receipt : Option (List Nat)) (res : Except AccountError (Option (List Nat))) (t' : Trie)
    (h : Accounts.process_transaction account_op t address account_type transaction
      block_height receipt = (res, t')) (a : Address) (ha : a ≠ address) : t' a = t a := by
  rcases res with e | data?
  · rw [Accounts.process_transaction_error account_op t address account_type transaction
      block_height receipt e t' h]
  · obtain ⟨-, a', -, h2⟩ := Accounts.process_transaction_ok account_op t address account_type
      transaction block_height receipt data? t' h
    rw [h2]
    exact Trie.put_batch_ne _ _ _ _ ha

/-- An erroring `process_inherent` returns the trie unchanged. -/
theorem Accounts.process_inherent_error (account_op : InhOp) (t : Trie) (inherent : Inherent)
    (receipt : Option (List Nat)) (e : AccountError) (t' : Trie)
    (h : Accounts.process_inherent account_op t inherent receipt = (Except.error e, t')) :
    t' = t := by
  simp only [Accounts.process_inherent, Trie.get] at h
  rcases hop : account_op (t inherent.target) inherent receipt with e' | ⟨a', d⟩ <;>
    rw [hop] at h <;> simp only [Prod.mk.injEq] at h
  · exact h.2.symm
  · exact absurd h.1 (by simp)

/-- `process_inherent` only ever writes at the inherent's target. -/
theorem Accounts.process_inherent_frame (account_op : InhOp) (t : Trie) (inherent : Inherent)
    (receipt : Option (List Nat)) (res : Except AccountError (Option (List Nat))) (t' : Trie)
    (h : Accounts.process_inherent account_op t inherent receipt = (res, t'))
    (a : Address) (ha : a ≠ inherent.target) : t' a = t a := by
  rcases res with e | data?
  · rw [Accounts.process_inherent_error account_op t inherent receipt e t' h]
  · obtain ⟨a', -, h2⟩ := Accounts.process_inherent_ok account_op t inherent receipt data? t' h
    rw [h2]
    exact Trie.put_batch_ne _ _ _ _ ha

/-- The sender phase only writes at sender addresses of the processed
transactions, whether it succeeds or fails part-way. -/
theorem Accounts.process_senders_go_frame (account_op : TxOp) (block_height : Nat) :
    ∀ (txs : List Transaction) (t : Trie) (i : Nat) (m : ReceiptsMap)
      (res : Except AccountError (List Receipt)) (t' : Trie),
    Accounts.process_senders_go account_op block_height t txs i m = (res, t') →
    ∀ a, (∀ tx ∈ txs, a ≠ tx.sender) → t' a = t a := by
  intro txs
  induction txs with
  | nil =>
      intro t i m res t' h a ha
      simp only [Accounts.process_senders_go, Prod.mk.injEq] at h
      rw [← h.2]
  | cons tx rest ih =>
      intro t i m res t' h a ha
      simp only [Accounts.process_senders_go] at h
      split at h
      · rename_i e t1 heq
        simp only [Prod.mk.injEq] at h
        rw [← h.2]
        exact Accounts.process_transaction_frame _ _ _ _ _ _ _ _ _ heq a
          (ha tx (List.mem_cons_self tx rest))
      · rename_i data? t1 heq
        split at h
        · rename_i e t2 heq2
          simp only [Prod.mk.injEq] at h
          rw [← h.2]
          rw [ih t1 (i + 1) _ _ _ heq2 a (fun tx' htx' => ha tx' (List.mem_cons_of_mem tx htx'))]
          exact Accounts.process_transaction_frame _ _ _ _ _ _ _ _ _ heq a
            (ha tx (List.mem_cons_self tx rest))
        · rename_i rs t2 heq2
          have h2 : t' = t2 := by
            rcases data? with - | d <;> simp only [Prod.mk.injEq] at h <;> exact h.2.symm
          rw [h2]
          rw [ih t1 (i + 1) _ _ _ heq2 a (fun tx' htx' => ha tx' (List.mem_cons_of_mem tx htx'))]
          exact Accounts.process_transaction_frame _ _ _ _ _ _ _ _ _ heq a
            (ha tx (List.mem_cons_self tx rest))

/-- The recipient phase only writes at recipient addresses of the
processed transactions. -/
theorem Accounts.process_recipients_go_frame (account_op : TxOp) (block_height : Nat) :
    ∀ (txs : List Transaction) (t : Trie) (i : Nat) (m : ReceiptsMap)
      (res : Except AccountError (List Receipt)) (t' : Trie),
    Accounts.process_recipients_go account_op block_height t txs i m = (res, t') →
    ∀ a, (∀ tx ∈ txs, a ≠ tx.recipient) → t' a = t a := by
  intro txs
  induction txs with
  | nil =>
      intro t i m res t' h a ha
      simp only [Accounts.process_recipients_go, Prod.mk.injEq] at h
      rw [← h.2]
  | cons tx rest ih =>
      intro t i m res t' h a ha
      simp only [Accounts.process_recipients_go] at h
      split at h
      · rename_i e t1 heq
        simp only [Prod.mk.injEq] at h
        rw [← h.2]
        exact Accounts.process_transaction_frame _ _ _ _ _ _ _ _ _ heq a
          (ha tx (List.mem_cons_self tx rest))
      · rename_i data? t1 heq
        split at h
        · rename_i e t2 heq2
          simp only [Prod.mk.injEq] at h
          rw [← h.2]
          rw [ih t1 (i + 1) _ _ _ heq2 a (fun tx' htx' => ha tx' (List.mem_cons_of_mem tx htx'))]
          exact Accounts.process_transaction_frame _ _ _ _ _ _ _ _ _ heq a
            (ha tx (List.mem_cons_self tx rest))
        · rename_i rs t2 heq2
          have h2 : t' = t2 := by
            rcases data? with - | d <;> simp only [Prod.mk.injEq] at h <;> exact h.2.symm
          rw [h2]
          rw [ih t1 (i + 1) _ _ _ heq2 a (fun tx' htx' => ha tx' (List.mem_cons_of_mem tx htx'))]
          exact Accounts.process_transaction_frame _ _ _ _ _ _ _ _ _ heq a
            (ha tx (List.mem_cons_self tx rest))

/-- The inherent phase only writes at target addresses of the processed
inherents. -/
theorem Accounts.process_inherents_go_frame (account_op : InhOp) :
    ∀ (inhs : List Inherent) (t : Trie) (i : Nat) (m : ReceiptsMap)
      (res : Except AccountError (List Receipt)) (t' : Trie),
    Accounts.process_inherents_go account_op t inhs i m = (res, t') →
    ∀ a, (∀ inh ∈ inhs, a ≠ inh.target) → t' a = t a := by
  intro inhs
  induction inhs with
  | nil =>
      intro t i m res t' h a ha
      simp only [Accounts.process_inherents_go, Prod.mk.injEq] at h
      rw [← h.2]
  | cons inh rest ih =>
      intro t i m res t' h a ha
      simp only [Accounts.process_inherents_go] at h
      split at h
      · rename_i e t1 heq
        simp only [Prod.mk.injEq] at h
        rw [← h.2]
        exact Accounts.process_inherent_frame _ _ _ _ _ _ heq a
          (ha inh (List.mem_cons_self inh rest))
      · rename_i data? t1 heq
        split at h
        · rename_i e t2 heq2
          simp only [Prod.mk.injEq] at h
          rw [← h.2]
          rw [ih t1 (i + 1) _ _ _ heq2 a
            (fun inh' hinh' => ha inh' (List.mem_cons_of_mem inh hinh'))]
          exact Accounts.process_inherent_frame _ _ _ _ _ _ heq a
            (ha inh (List.mem_cons_self inh rest))
        · rename_i rs t2 heq2
          have h2 : t' = t2 := by
            rcases data? with - | d <;> simp only [Prod.mk.injEq] at h <;> exact h.2.symm
          rw [h2]
          rw [ih t1 (i + 1) _ _ _ heq2 a
            (fun inh' hinh' => ha inh' (List.mem_cons_of_mem inh hinh'))]
          exact Accounts.process_inherent_frame _ _ _ _ _ _ heq a
            (ha inh (List.mem_cons_self inh rest))

/-- `create_contract` only writes at the transaction's recipient. -/
theorem Accounts.create_contract_frame (ops : AccountOps) (t : Trie)
    (transaction : Transaction) (block_height timestamp : Nat)
    (res : Except AccountError Unit) (t' : Trie)
    (h : Accounts.create_contract ops t transaction block_height timestamp = (res, t'))
    (a : Address) (ha : a ≠ transaction.recipient) : t' a = t a := by
  simp only [Accounts.create_contract, Trie.get] at h
  rcases hc : ops.new_contract transaction.recipient_type (t transaction.recipient).balance
      transaction block_height timestamp with e | c <;>
    rw [hc] at h <;> simp only [Prod.mk.injEq] at h <;> rw [← h.2]
  · exact Trie.put_batch_ne _ _ _ _ ha

/-- `revert_contract` only writes at the transaction's recipient. -/
theorem Accounts.revert_contract_frame (ops : AccountOps) (t : Trie)
    (transaction : Transaction) (block_height timestamp : Nat)
    (res : Except AccountError Unit) (t' : Trie)
    (h : Accounts.revert_contract ops t transaction block_height timestamp = (res, t'))
    (a : Address) (ha : a ≠ transaction.recipient) : t' a = t a := by
  simp only [Accounts.revert_contract, Trie.get] at h
  by_cases hty : (t transaction.recipient).account_type = transaction.recipient_type
  · rw [if_pos hty] at h
    simp only [Prod.mk.injEq] at h
    rw [← h.2]
    exact Trie.put_batch_ne _ _ _ _ ha
  · rw [if_neg hty] at h
    simp only [Prod.mk.injEq] at h
    rw [← h.2]

/-- The contract-creation phase only writes at recipient addresses of
the (flagged) transactions. -/
theorem Accounts.create_contracts_frame (ops : AccountOps) :
    ∀ (txs : List Transaction) (t : Trie) (block_height timestamp : Nat)
      (res : Except AccountError Unit) (t' : Trie),
    Accounts.create_contracts ops t txs block_height timestamp = (res, t') →
    ∀ a, (∀ tx ∈ txs, tx.flags_contract_creation = true → a ≠ tx.recipient) → t' a = t a := by
  intro txs
  induction txs with
  | nil =>
      intro t bh ts res t' h a ha
      simp only [Accounts.create_contracts, Prod.mk.injEq] at h
      rw [← h.2]
  | cons tx rest ih =>
      intro t bh ts res t' h a ha
      simp only [Accounts.create_contracts] at h
      split at h
      · rename_i hflag
        split at h
        · rename_i e t1 heq
          simp only [Prod.mk.injEq] at h
          rw [← h.2]
          exact Accounts.create_contract_frame _ _ _ _ _ _ _ heq a
            (ha tx (List.mem_cons_self tx rest) hflag)
        · rename_i u t1 heq
          rw [ih t1 bh ts res t' h a
            (fun tx' htx' hf => ha tx' (List.mem_cons_of_mem tx htx') hf)]
          exact Accounts.create_contract_frame _ _ _ _ _ _ _ heq a
            (ha tx (List.mem_cons_self tx rest) hflag)
      · exact ih t bh ts res t' h a
          (fun tx' htx' hf => ha tx' (List.mem_cons_of_mem tx htx') hf)

/-- The contract-reversal phase only writes at recipient addresses of
the (flagged) transactions. -/
theorem Accounts.revert_contracts_frame (ops : AccountOps) :
    ∀ (txs : List Transaction) (t : Trie) (block_height timestamp : Nat)
      (res : Except AccountError Unit) (t' : Trie),
    Accounts.revert_contracts ops t txs block_height timestamp = (res, t') →
    ∀ a, (∀ tx ∈ txs, tx.flags_contract_creation = true → a ≠ tx.recipient) → t' a = t a := by
  intro txs
  induction txs with
  | nil =>
      intro t bh ts res t' h a ha
      simp only [Accounts.revert_contracts, Prod.mk.injEq] at h
      rw [← h.2]
  | cons tx rest ih =>
      intro t bh ts res t' h a ha
      simp only [Accounts.revert_contracts] at h
      split at h
      · rename_i hflag
        split at h
        · rename_i e t1 heq
          simp only [Prod.mk.injEq] at h
          rw [← h.2]
          exact Accounts.revert_contract_frame _ _ _ _ _ _ _ heq a
            (ha tx (List.mem_cons_self tx rest) hflag)
        · rename_i u t1 heq
          rw [ih t1 bh ts res t' h a
            (fun tx' htx' hf => ha tx' (List.mem_cons_of_mem tx htx') hf)]
          exact Accounts.revert_contract_frame _ _ _ _ _ _ _ heq a
            (ha tx (List.mem_cons_self tx rest) hflag)
      · exact ih t bh ts res t' h a
          (fun tx' htx' hf => ha tx' (List.mem_cons_of_mem tx htx') hf)

/-! ### Receipt lookup bookkeeping

`prepare_receipts` inserts receipts into hash maps in list order, a later
insert overwriting an earlier one at the same key.  The resulting lookup
therefore returns the data of the *last* matching receipt, captured by
the following reference functions. -/

/-- One receipt's contribution to a transaction-receipt lookup: a
matching `Receipt::Transaction` replaces the accumulated value. -/
def txStep (s : Bool) (k : Nat) (acc : Option (List Nat)) : Receipt → Option (List Nat)
  | Receipt.transaction i s' d => if s' = s ∧ i = k then some d else acc
  | Receipt.inherent _ _ _ => acc

/-- One receipt's contribution to an inherent-receipt lookup. -/
def inhStep (p : Bool) (k : Nat) (acc : Option (List Nat)) : Receipt → Option (List Nat)
  | Receipt.inherent i p' d => if p' = p ∧ i = k then some d else acc
  | Receipt.transaction _ _ _ => acc

def lastTxDataAcc (s : Bool) (k : Nat) : Option (List Nat) → List Receipt → Option (List Nat)
  | acc, [] => acc
  | acc, r :: rest => lastTxDataAcc s k (txStep s k acc r) rest

def lastInhDataAcc (p : Bool) (k : Nat) : Option (List Nat) → List Receipt → Option (List Nat)
  | acc, [] => acc
  | acc, r :: rest => lastInhDataAcc p k (inhStep p k acc r) rest

/-- Data of the last `Receipt::Transaction` with the given `sender` flag
and index in the list, if any (insertion order, later receipts win). -/
def lastTxData (s : Bool) (k : Nat) (L : List Receipt) : Option (List Nat) :=
  lastTxDataAcc s k none L

/-- Data of the last `Receipt::Inherent` with the given
`pre_transactions` flag and index in the list, if any. -/
def lastInhData (p : Bool) (k : Nat) (L : List Receipt) : Option (List Nat) :=
  lastInhDataAcc p k none L

theorem lastTxDataAcc_eq (s : Bool) (k : Nat) :
    ∀ (L : List Receipt) (acc : Option (List Nat)),
    lastTxDataAcc s k acc L =
      match lastTxData s k L with
      | some d => some d
      | none => acc := by
  intro L
  induction L with
  | nil => intro acc; rfl
  | cons r rest ih =>
      intro acc
      show lastTxDataAcc s k (txStep s k acc r) rest = _
      rw [ih (txStep s k acc r)]
      have hr : lastTxData s k (r :: rest) = lastTxDataAcc s k (txStep s k none r) rest := rfl
      rw [hr, ih (txStep s k none r)]
      cases hrest : lastTxData s k rest with
      | some d => rfl
      | none =>
          cases r with
          | transaction i s' d =>
              simp only [txStep]
              by_cases hc : s' = s ∧ i = k
              · rw [if_pos hc, if_pos hc]
              · rw [if_neg hc, if_neg hc]
          | inherent i p d => rfl

theorem lastInhDataAcc_eq (p : Bool) (k : Nat) :
    ∀ (L : List Receipt) (acc : Option (List Nat)),
    lastInhDataAcc p k acc L =
      match lastInhData p k L with
      | some d => some d
      | none => acc := by
  intro L
  induction L with
  | nil => intro acc; rfl
  | cons r rest ih =>
      intro acc
      show lastInhDataAcc p k (inhStep p k acc r) rest = _
      rw [ih (inhStep p k acc r)]
      have hr : lastInhData p k (r :: rest) = lastInhDataAcc p k (inhStep p k none r) rest := rfl
      rw [hr, ih (inhStep p k none r)]
      cases hrest : lastInhData p k rest with
      | some d => rfl
      | none =>
          cases r with
          | inherent i p' d =>
              simp only [inhStep]
              by_cases hc : p' = p ∧ i = k
              · rw [if_pos hc, if_pos hc]
              · rw [if_neg hc, if_neg hc]
          | transaction i s d => rfl

/-- Lookup in a cons: the rest of the list takes precedence (later
receipts overwrite earlier ones). -/
theorem lastTxData_cons (s : Bool) (k : Nat) (r : Receipt) (L : List Receipt) :
    lastTxData s k (r :: L) =
      match lastTxData s k L with
      | some d => some d
      | none => txStep s k none r := by
  show lastTxDataAcc s k (txStep s k none r) L = _
  exact lastTxDataAcc_eq s k L (txStep s k none r)

theorem lastInhData_cons (p : Bool) (k : Nat) (r : Receipt) (L : List Receipt) :
    lastInhData p k (r :: L) =
      match lastInhData p k L with
      | some d => some d
      | none => inhStep p k none r := by
  show lastInhDataAcc p k (inhStep p k none r) L = _
  exact lastInhDataAcc_eq p k L (inhStep p k none r)

theorem lastTxData_append (s : Bool) (k : Nat) (L1 L2 : List Receipt) :
    lastTxData s k (L1 ++ L2) =
      match lastTxData s k L2 with
      | some d => some d
      | none => lastTxData s k L1 := by
  induction L1 with
  | nil =>
      show lastTxData s k L2 = _
      cases lastTxData s k L2 <;> rfl
  | cons r rest ih =>
      rw [List.cons_append, lastTxData_cons, ih, lastTxData_cons]
      cases lastTxData s k L2 <;> cases lastTxData s k rest <;> rfl

theorem lastInhData_append (p : Bool) (k : Nat) (L1 L2 : List Receipt) :
    lastInhData p k (L1 ++ L2) =
      match lastInhData p k L2 with
      | some d => some d
      | none => lastInhData p k L1 := by
  induction L1 with
  | nil =>
      show lastInhData p k L2 = _
      cases lastInhData p k L2 <;> rfl
  | cons r rest ih =>
      rw [List.cons_append, lastInhData_cons, ih, lastInhData_cons]
      cases lastInhData p k L2 <;> cases lastInhData p k rest <;> rfl

/-- A successful `lastTxData` lookup comes from a matching receipt. -/
theorem lastTxData_mem (s : Bool) (k : Nat) :
    ∀ (L : List Receipt) (d : List Nat),
    lastTxData s k L = some d → Receipt.transaction k s d ∈ L := by
  intro L
  induction L with
  | nil => intro d h; cases h
  | cons r rest ih =>
      intro d h
      rw [lastTxData_cons] at h
      cases hrest : lastTxData s k rest with
      | some d' =>
          rw [hrest] at h
          cases h
          exact List.mem_cons_of_mem r (ih d hrest)
      | none =>
          rw [hrest] at h
          cases r with
          | transaction i s' d'' =>
              simp only [txStep] at h
              by_cases hc : s' = s ∧ i = k
              · rw [if_pos hc] at h
                cases h
                obtain ⟨rfl, rfl⟩ := hc
                exact List.mem_cons_self _ _
              · rw [if_neg hc] at h; cases h
          | inherent i p d'' => cases h

theorem lastInhData_mem (p : Bool) (k : Nat) :
    ∀ (L : List Receipt) (d : List Nat),
    lastInhData p k L = some d → Receipt.inherent k p d ∈ L := by
  intro L
  induction L with
  | nil => intro d h; cases h
  | cons r rest ih =>
      intro d h
      rw [lastInhData_cons] at h
      cases hrest : lastInhData p k rest with
      | some d' =>
          rw [hrest] at h
          cases h
          exact List.mem_cons_of_mem r (ih d hrest)
      | none =>
          rw [hrest] at h
          cases r with
          | inherent i p' d'' =>
              simp only [inhStep] at h
              by_cases hc : p' = p ∧ i = k
              · rw [if_pos hc] at h
                cases h
                obtain ⟨rfl, rfl⟩ := hc
                exact List.mem_cons_self _ _
              · rw [if_neg hc] at h; cases h
          | transaction i s d'' => cases h

/-- If no receipt in the list matches, the lookup is empty. -/
theorem lastTxData_eq_none (s : Bool) (k : Nat) (L : List Receipt)
    (h : ∀ d, Receipt.transaction k s d ∉ L) : lastTxData s k L = none := by
  cases hr : lastTxData s k L with
  | none => rfl
  | some d => exact absurd (lastTxData_mem s k L d hr) (h d)

theorem lastInhData_eq_none (p : Bool) (k : Nat) (L : List Receipt)
    (h : ∀ d, Receipt.inherent k p d ∉ L) : lastInhData p k L = none := by
  cases hr : lastInhData p k L with
  | none => rfl
  | some d => exact absurd (lastInhData_mem p k L d hr) (h d)

/-- Folding `prepare_receipts_step` over a receipt list: each component's
lookup is the last matching receipt's data, falling back to the initial
map. -/
theorem Accounts.prepare_receipts_fold (k : Nat) :
    ∀ (L : List Receipt) (maps : ReceiptsMap × ReceiptsMap × ReceiptsMap × ReceiptsMap),
    ((L.foldl Accounts.prepare_receipts_step maps).1 k =
      match lastTxData true k L with
      | some d => some d
      | none => maps.1 k) ∧
    ((L.foldl Accounts.prepare_receipts_step maps).2.1 k =
      match lastTxData false k L with
      | some d => some d
      | none => maps.2.1 k) ∧
    ((L.foldl Accounts.prepare_receipts_step maps).2.2.1 k =
      match lastInhData true k L with
      | some d => some d
      | none => maps.2.2.1 k) ∧
    ((L.foldl Accounts.prepare_receipts_step maps).2.2.2 k =
      match lastInhData false k L with
      | some d => some d
      | none => maps.2.2.2 k) := by
  intro L
  induction L with
  | nil =>
      intro maps
      refine ⟨rfl, rfl, rfl, rfl⟩
  | cons r rest ih =>
      intro maps
      rw [List.foldl_cons]
      obtain ⟨ih1, ih2, ih3, ih4⟩ := ih (Accounts.prepare_receipts_step maps r)
      refine ⟨?_, ?_, ?_, ?_⟩
      · rw [ih1, lastTxData_cons]
        cases lastTxData true k rest with
        | some d => rfl
        | none =>
            rcases maps with ⟨s1, rc, pre, post⟩
            rcases r with ⟨i, s, d⟩ | ⟨i, p, d⟩
            · cases s with
              | true =>
                  by_cases hk : i = k
                  · subst hk
                    simp [txStep, Accounts.prepare_receipts_step, ReceiptsMap.insert]
                  · simp [txStep, Accounts.prepare_receipts_step, ReceiptsMap.insert, hk,
                      Ne.symm hk]
              | false =>
                  simp [txStep, Accounts.prepare_receipts_step, ReceiptsMap.insert]
            · cases p <;>
                simp [txStep, inhStep, Accounts.prepare_receipts_step, ReceiptsMap.insert]
      · rw [ih2, lastTxData_cons]
        cases lastTxData false k rest with
        | some d => rfl
        | none =>
            rcases maps with ⟨s1, rc, pre, post⟩
            rcases r with ⟨i, s, d⟩ | ⟨i, p, d⟩
            · cases s with
              | false =>
                  by_cases hk : i = k
                  · subst hk
                    simp [txStep, Accounts.prepare_receipts_step, ReceiptsMap.insert]
                  · simp [txStep, Accounts.prepare_receipts_step, ReceiptsMap.insert, hk,
                      Ne.symm hk]
              | true =>
                  simp [txStep, Accounts.prepare_receipts_step, ReceiptsMap.insert]
            · cases p <;>
                simp [txStep, inhStep, Accounts.prepare_receipts_step, ReceiptsMap.insert]
      · rw [ih3, lastInhData_cons]
        cases lastInhData true k rest with
        | some d => rfl
        | none =>
            rcases maps with ⟨s1, rc, pre, post⟩
            rcases r with ⟨i, s, d⟩ | ⟨i, p, d⟩
            · cases s <;>
                simp [txStep, inhStep, Accounts.prepare_receipts_step, ReceiptsMap.insert]
            · cases p with
              | true =>
                  by_cases hk : i = k
                  · subst hk
                    simp [inhStep, Accounts.prepare_receipts_step, ReceiptsMap.insert]
                  · simp [inhStep, Accounts.prepare_receipts_step, ReceiptsMap.insert, hk,
                      Ne.symm hk]
              | false =>
                  simp [inhStep, Accounts.prepare_receipts_step, ReceiptsMap.insert]
      · rw [ih4, lastInhData_cons]
        cases lastInhData false k rest with
        | some d => rfl
        | none =>
            rcases maps with ⟨s1, rc, pre, post⟩
            rcases r with ⟨i, s, d⟩ | ⟨i, p, d⟩
            · cases s <;>
                simp [txStep, inhStep, Accounts.prepare_receipts_step, ReceiptsMap.insert]
            · cases p with
              | false =>
                  by_cases hk : i = k
                  · subst hk
                    simp [inhStep, Accounts.prepare_receipts_step, ReceiptsMap.insert]
                  · simp [inhStep, Accounts.prepare_receipts_step, ReceiptsMap.insert, hk,
                      Ne.symm hk]
              | true =>
                  simp [inhStep, Accounts.prepare_receipts_step, ReceiptsMap.insert]

/-- Lookup characterization of `prepare_receipts`: each of the four maps
answers with the data of the last receipt of the corresponding tag, flag
and index in the bag. -/
theorem Accounts.prepare_receipts_spec (L : List Receipt) (k : Nat) :
    ((Accounts.prepare_receipts (Receipts.mk L)).1 k = lastTxData true k L) ∧
    ((Accounts.prepare_receipts (Receipts.mk L)).2.1 k = lastTxData false k L) ∧
    ((Accounts.prepare_receipts (Receipts.mk L)).2.2.1 k = lastInhData true k L) ∧
    ((Accounts.prepare_receipts (Receipts.mk L)).2.2.2 k = lastInhData false k L) := by
  obtain ⟨h1, h2, h3, h4⟩ := Accounts.prepare_receipts_fold k L
    (ReceiptsMap.empty, ReceiptsMap.empty, ReceiptsMap.empty, ReceiptsMap.empty)
  refine ⟨?_, ?_, ?_, ?_⟩
  · rw [show Accounts.prepare_receipts (Receipts.mk L) =
      L.foldl Accounts.prepare_receipts_step
        (ReceiptsMap.empty, ReceiptsMap.empty, ReceiptsMap.empty, ReceiptsMap.empty) from rfl, h1]
    cases lastTxData true k L <;> rfl
  · rw [show Accounts.prepare_receipts (Receipts.mk L) =
      L.foldl Accounts.prepare_receipts_step
        (ReceiptsMap.empty, ReceiptsMap.empty, ReceiptsMap.empty, ReceiptsMap.empty) from rfl, h2]
    cases lastTxData false k L <;> rfl
  · rw [show Accounts.prepare_receipts (Receipts.mk L) =
      L.foldl Accounts.prepare_receipts_step
        (ReceiptsMap.empty, ReceiptsMap.empty, ReceiptsMap.empty, ReceiptsMap.empty) from rfl, h3]
    cases lastInhData true k L <;> rfl
  · rw [show Accounts.prepare_receipts (Receipts.mk L) =
      L.foldl Accounts.prepare_receipts_step
        (ReceiptsMap.empty, ReceiptsMap.empty, ReceiptsMap.empty, ReceiptsMap.empty) from rfl, h4]
    cases lastInhData false k L <;> rfl

/-! ### Shape of the receipts emitted by each phase -/

/-- Every receipt emitted by the sender phase is a sender-transaction
receipt keyed by the (truncated) position of its transaction. -/
theorem Accounts.process_senders_go_receipts_shape (account_op : TxOp) (block_height : Nat) :
    ∀ (txs : List Transaction) (t : Trie) (i : Nat) (m : ReceiptsMap)
      (rs : List Receipt) (t' : Trie),
    Accounts.process_senders_go account_op block_height t txs i m = (Except.ok rs, t') →
    ∀ r ∈ rs, ∃ j d, j < txs.length ∧ r = Receipt.transaction ((i + j) % 65536) true d := by
  intro txs
  induction txs with
  | nil =>
      intro t i m rs t' h r hr
      simp only [Accounts.process_senders_go, Prod.mk.injEq, Except.ok.injEq] at h
      rw [← h.1] at hr
      cases hr
  | cons tx rest ih =>
      intro t i m rs t' h r hr
      simp only [Accounts.process_senders_go] at h
      split at h
      · simp only [Prod.mk.injEq] at h
        exact absurd h.1 (by simp)
      · rename_i data? t1 heq
        split at h
        · simp only [Prod.mk.injEq] at h
          exact absurd h.1 (by simp)
        · rename_i rs' t2 heq2
          rcases data? with - | d
          · simp only [Prod.mk.injEq, Except.ok.injEq] at h
            rw [← h.1] at hr
            obtain ⟨j, d', hj, hrd⟩ := ih t1 (i + 1) _ rs' t2 heq2 r hr
            refine ⟨j + 1, d', by simpa using Nat.succ_lt_succ hj, ?_⟩
            rw [hrd]
            have harith : i + 1 + j = i + (j + 1) := by omega
            rw [harith]
          · simp only [Prod.mk.injEq, Except.ok.injEq] at h
            rw [← h.1] at hr
            rcases List.mem_cons.mp hr with rfl | hr'
            · exact ⟨0, d, Nat.succ_pos _, by rw [Nat.add_zero]⟩
            · obtain ⟨j, d', hj, hrd⟩ := ih t1 (i + 1) _ rs' t2 heq2 r hr'
              refine ⟨j + 1, d', by simpa using Nat.succ_lt_succ hj, ?_⟩
              rw [hrd]
              have harith : i + 1 + j = i + (j + 1) := by omega
              rw [harith]

/-- Every receipt emitted by the recipient phase is a recipient
(`sender = false`) transaction receipt keyed by the truncated position. -/
theorem Accounts.process_recipients_go_receipts_shape (account_op : TxOp) (block_height : Nat) :
    ∀ (txs : List Transaction) (t : Trie) (i : Nat) (m : ReceiptsMap)
      (rs : List Receipt) (t' : Trie),
    Accounts.process_recipients_go account_op block_height t txs i m = (Except.ok rs, t') →
    ∀ r ∈ rs, ∃ j d, j < txs.length ∧ r = Receipt.transaction ((i + j) % 65536) false d := by
  intro txs
  induction txs with
  | nil =>
      intro t i m rs t' h r hr
      simp only [Accounts.process_recipients_go, Prod.mk.injEq, Except.ok.injEq] at h
      rw [← h.1] at hr
      cases hr
  | cons tx rest ih =>
      intro t i m rs t' h r hr
      simp only [Accounts.process_recipients_go] at h
      split at h
      · simp only [Prod.mk.injEq] at h
        exact absurd h.1 (by simp)
      · rename_i data? t1 heq
        split at h
        · simp only [Prod.mk.injEq] at h
          exact absurd h.1 (by simp)
        · rename_i rs' t2 heq2
          rcases data? with - | d
          · simp only [Prod.mk.injEq, Except.ok.injEq] at h
            rw [← h.1] at hr
            obtain ⟨j, d', hj, hrd⟩ := ih t1 (i + 1) _ rs' t2 heq2 r hr
            refine ⟨j + 1, d', by simpa using Nat.succ_lt_succ hj, ?_⟩
            rw [hrd]
            have harith : i + 1 + j = i + (j + 1) := by omega
            rw [harith]
          · simp only [Prod.mk.injEq, Except.ok.injEq] at h
            rw [← h.1] at hr
            rcases List.mem_cons.mp hr with rfl | hr'
            · exact ⟨0, d, Nat.succ_pos _, by rw [Nat.add_zero]⟩
            · obtain ⟨j, d', hj, hrd⟩ := ih t1 (i + 1) _ rs' t2 heq2 r hr'
              refine ⟨j + 1, d', by simpa using Nat.succ_lt_succ hj, ?_⟩
              rw [hrd]
              have harith : i + 1 + j = i + (j + 1) := by omega
              rw [harith]

/-- Every receipt emitted by an inherent phase whose inherents all carry
the flag `b` is an inherent receipt with flag `b` keyed by the truncated
position. -/
theorem Accounts.process_inherents_go_receipts_shape (account_op : InhOp) (b : Bool) :
    ∀ (inhs : List Inherent) (t : Trie) (i : Nat) (m : ReceiptsMap)
      (rs : List Receipt) (t' : Trie),
    (∀ inh ∈ inhs, inh.is_pre_transactions = b) →
    Accounts.process_inherents_go account_op t inhs i m = (Except.ok rs, t') →
    ∀ r ∈ rs, ∃ j d, j < inhs.length ∧ r = Receipt.inherent ((i + j) % 65536) b d := by
  intro inhs
  induction inhs with
  | nil =>
      intro t i m rs t' hb h r hr
      simp only [Accounts.process_inherents_go, Prod.mk.injEq, Except.ok.injEq] at h
      rw [← h.1] at hr
      cases hr
  | cons inh rest ih =>
      intro t i m rs t' hb h r hr
      simp only [Accounts.process_inherents_go] at h
      split at h
      · simp only [Prod.mk.injEq] at h
        exact absurd h.1 (by simp)
      · rename_i data? t1 heq
        split at h
        · simp only [Prod.mk.injEq] at h
          exact absurd h.1 (by simp)
        · rename_i rs' t2 heq2
          have hbrest : ∀ inh' ∈ rest, inh'.is_pre_transactions = b :=
            fun inh' h' => hb inh' (List.mem_cons_of_mem inh h')
          rcases data? with - | d
          · simp only [Prod.mk.injEq, Except.ok.injEq] at h
            rw [← h.1] at hr
            obtain ⟨j, d', hj, hrd⟩ := ih t1 (i + 1) _ rs' t2 hbrest heq2 r hr
            refine ⟨j + 1, d', by simpa using Nat.succ_lt_succ hj, ?_⟩
            rw [hrd]
            have harith : i + 1 + j = i + (j + 1) := by omega
            rw [harith]
          · simp only [Prod.mk.injEq, Except.ok.injEq] at h
            rw [← h.1] at hr
            rcases List.mem_cons.mp hr with rfl | hr'
            · refine ⟨0, d, Nat.succ_pos _, ?_⟩
              rw [Nat.add_zero, hb inh (List.mem_cons_self inh rest)]
            · obtain ⟨j, d', hj, hrd⟩ := ih t1 (i + 1) _ rs' t2 hbrest heq2 r hr'
              refine ⟨j + 1, d', by simpa using Nat.succ_lt_succ hj, ?_⟩
              rw [hrd]
              have harith : i + 1 + j = i + (j + 1) := by omega
              rw [harith]

/-! ### Per-phase exact-inverse lemmas -/

/-- Reverting the sender phase with the receipts its commit produced
restores every sender account, provided sender addresses are pairwise
distinct, at most 65536 transactions are processed, and the account
variant's revert is the exact (type-preserving) inverse of its commit.
The revert may start from any trie `u` agreeing with the commit's result
on the sender addresses; it rewrites exactly those addresses back to
their pre-commit values. -/
theorem Accounts.process_senders_roundtrip (ops : AccountOps) (block_height timestamp : Nat)
    (hInv : ∀ a tx a' d?,
      ops.commit_outgoing_transaction a tx block_height timestamp = Except.ok (a', d?) →
      ops.revert_outgoing_transaction a' tx block_height timestamp d? = Except.ok a)
    (hTy : ∀ a tx a' d?,
      ops.commit_outgoing_transaction a tx block_height timestamp = Except.ok (a', d?) →
      a'.account_type = a.account_type) :
    ∀ (txs : List Transaction) (t t' u : Trie) (i : Nat) (m0 M : ReceiptsMap)
      (rs : List Receipt),
    (∀ k, m0 k = none) →
    i + txs.length ≤ 65536 →
    (txs.map Transaction.sender).Pairwise (fun a b => a ≠ b) →
    Accounts.process_senders_go (commitSenderOp ops timestamp) block_height t txs i m0 =
      (Except.ok rs, t') →
    (∀ tx ∈ txs, u tx.sender = t' tx.sender) →
    (∀ k, M k = lastTxData true k rs) →
    Accounts.process_senders_go (revertSenderOp ops timestamp) block_height u txs i M =
      (Except.ok [], fun a => if a ∈ txs.map Transaction.sender then t a else u a) := by
  intro txs
  induction txs with
  | nil =>
      intro t t' u i m0 M rs hm0 hbound hpair hc hu hM
      rw [show (fun a => if a ∈ ([] : List Transaction).map Transaction.sender then t a else u a)
        = u from funext fun a => by simp]
      rfl
  | cons tx rest ih =>
      intro t t' u i m0 M rs hm0 hbound hpair hc hu hM
      simp only [Accounts.process_senders_go] at hc
      rw [ReceiptsMap.remove_fst, hm0] at hc
      have hm0' : ∀ k, (m0.remove (i % 65536)).2 k = none := by
        intro k
        by_cases hk : k = i % 65536
        · subst hk; exact ReceiptsMap.remove_snd_same m0 _
        · rw [ReceiptsMap.remove_snd_ne m0 _ k hk]; exact hm0 k
      have hpair2 : (tx.sender :: rest.map Transaction.sender).Pairwise
          (fun a b => a ≠ b) := by simpa using hpair
      have hpair' := List.pairwise_cons.mp hpair2
      have hhead : ∀ tx' ∈ rest, tx.sender ≠ tx'.sender := by
        intro tx' htx'
        exact hpair'.1 tx'.sender (List.mem_map_of_mem Transaction.sender htx')
      have hpairrest : (rest.map Transaction.sender).Pairwise (fun a b => a ≠ b) := hpair'.2
      split at hc
      · simp only [Prod.mk.injEq] at hc
        exact absurd hc.1 (by simp)
      · rename_i data? t1 heq
        split at hc
        · simp only [Prod.mk.injEq] at hc
          exact absurd hc.1 (by simp)
        · rename_i rs' t2 heq2
          -- commit step of the head transaction
          obtain ⟨htych, a1, hop1, ht1⟩ := Accounts.process_transaction_ok _ _ _ _ _ _ _ _ _ heq
          have htyhead : (t tx.sender).account_type = tx.sender_type := htych tx.sender_type rfl
          subst ht1
          have ht' : t2 = t' := by
            rcases data? with - | d <;> simp only [Prod.mk.injEq] at hc <;> exact hc.2
          have hrs : rs = (match data? with
              | some d => Receipt.transaction (i % 65536) true d :: rs'
              | none => rs') := by
            rcases data? with - | d <;>
              simp only [Prod.mk.injEq, Except.ok.injEq] at hc <;> exact hc.1.symm
          -- the final commit trie still holds the committed head account
          have hkeep : t2 tx.sender = a1 := by
            rw [Accounts.process_senders_go_frame _ _ rest _ _ _ _ _ heq2 tx.sender hhead]
            exact Trie.put_batch_same t tx.sender a1
          -- no receipt of the tail carries the head's key
          have hkey : ∀ j, j < rest.length → (i % 65536) ≠ ((i + 1 + j) % 65536) := by
            intro j hj
            simp only [List.length_cons] at hbound
            rw [Nat.mod_eq_of_lt (by omega), Nat.mod_eq_of_lt (by omega)]
            omega
          have hnone : lastTxData true (i % 65536) rs' = none := by
            apply lastTxData_eq_none
            intro d0 hmem
            obtain ⟨j, d1, hj, hre⟩ :=
              Accounts.process_senders_go_receipts_shape _ _ rest _ _ _ _ _ heq2 _ hmem
            injection hre with h1 h2 h3
            exact hkey j hj h1
          -- the receipt the revert consumes is exactly the commit's data
          have hrr : M (i % 65536) = data? := by
            rw [hM, hrs]
            rcases data? with - | d
            · exact hnone
            · rw [lastTxData_cons, hnone]
              simp [txStep]
          -- the head account as the revert finds it
          have hu1 : u tx.sender = a1 := by
            rw [hu tx (List.mem_cons_self tx rest), ← ht']
            exact hkeep
          have hopr : revertSenderOp ops timestamp (u tx.sender) tx block_height
              (M (i % 65536)) = Except.ok (t tx.sender, none) := by
            show (ops.revert_outgoing_transaction (u tx.sender) tx block_height timestamp
              (M (i % 65536))).map (fun a => (a, none)) = _
            rw [hu1, hrr, hInv (t tx.sender) tx a1 data? hop1]
            rfl
          have hPT : Accounts.process_transaction (revertSenderOp ops timestamp) u tx.sender
              (some tx.sender_type) tx block_height (M (i % 65536)) =
              (Except.ok none, u.put_batch tx.sender (t tx.sender)) := by
            apply Accounts.process_transaction_eq_ok
            · intro ty hty'
              cases hty'
              rw [hu1, hTy (t tx.sender) tx a1 data? hop1, htyhead]
            · exact hopr
          -- receipts map for the tail revert
          have hM' : ∀ k, (M.remove (i % 65536)).2 k = lastTxData true k rs' := by
            intro k
            by_cases hk : k = i % 65536
            · subst hk
              rw [ReceiptsMap.remove_snd_same, hnone]
            · rw [ReceiptsMap.remove_snd_ne M _ k hk, hM, hrs]
              rcases data? with - | d
              · rfl
              · rw [lastTxData_cons]
                cases hrest : lastTxData true k rs' with
                | some d' => rfl
                | none => simp [txStep, Ne.symm hk]
          have hu' : ∀ tx' ∈ rest, (u.put_batch tx.sender (t tx.sender)) tx'.sender
              = t2 tx'.sender := by
            intro tx' htx'
            rw [Trie.put_batch_ne _ _ _ _ (Ne.symm (hhead tx' htx')),
              hu tx' (List.mem_cons_of_mem tx htx'), ht']
          have hrec := ih (t.put_batch tx.sender a1) t2
            (u.put_batch tx.sender (t tx.sender)) (i + 1) (m0.remove (i % 65536)).2
            (M.remove (i % 65536)).2 rs' hm0'
            (by simp only [List.length_cons] at hbound; omega) hpairrest heq2 hu' hM'
          -- assemble the revert run
          have hfun : (fun a => if a ∈ rest.map Transaction.sender
              then (t.put_batch tx.sender a1) a
              else (u.put_batch tx.sender (t tx.sender)) a) =
              (fun a => if a ∈ (tx :: rest).map Transaction.sender then t a else u a) := by
            funext a
            by_cases ha : a ∈ rest.map Transaction.sender
            · have hne : a ≠ tx.sender := by
                obtain ⟨tx'', htx'', rfl⟩ := List.mem_map.mp ha
                exact Ne.symm (hhead tx'' htx'')
              rw [if_pos ha, Trie.put_batch_ne _ _ _ _ hne,
                if_pos (by rw [List.map_cons]; exact List.mem_cons_of_mem _ ha)]
            · rw [if_neg ha]
              by_cases hae : a = tx.sender
              · subst hae
                rw [Trie.put_batch_same,
                  if_pos (by rw [List.map_cons]; exact List.mem_cons_self _ _)]
              · rw [Trie.put_batch_ne _ _ _ _ hae,
                  if_neg (by rw [List.map_cons]; simp [hae, ha])]
          simp only [Accounts.process_senders_go, ReceiptsMap.remove_fst, hPT, hrec, hfun]

/-- Reverting the recipient phase with the receipts its commit produced
restores every recipient account, under the recipient-side analogues of
the sender-phase hypotheses.  The conditional type check (skipped for
CONTRACT_CREATION transactions) is mirrored in both directions. -/
theorem Accounts.process_recipients_roundtrip (ops : AccountOps) (block_height timestamp : Nat)
    (hInv : ∀ a tx a' d?,
      ops.commit_incoming_transaction a tx block_height timestamp = Except.ok (a', d?) →
      ops.revert_incoming_transaction a' tx block_height timestamp d? = Except.ok a)
    (hTy : ∀ a tx a' d?,
      ops.commit_incoming_transaction a tx block_height timestamp = Except.ok (a', d?) →
      a'.account_type = a.account_type) :
    ∀ (txs : List Transaction) (t t' u : Trie) (i : Nat) (m0 M : ReceiptsMap)
      (rs : List Receipt),
    (∀ k, m0 k = none) →
    i + txs.length ≤ 65536 →
    (txs.map Transaction.recipient).Pairwise (fun a b => a ≠ b) →
    Accounts.process_recipients_go (commitRecipientOp ops timestamp) block_height t txs i m0 =
      (Except.ok rs, t') →
    (∀ tx ∈ txs, u tx.recipient = t' tx.recipient) →
    (∀ k, M k = lastTxData false k rs) →
    Accounts.process_recipients_go (revertRecipientOp ops timestamp) block_height u txs i M =
      (Except.ok [], fun a => if a ∈ txs.map Transaction.recipient then t a else u a) := by
  intro txs
  induction txs with
  | nil =>
      intro t t' u i m0 M rs hm0 hbound hpair hc hu hM
      rw [show (fun a =>
          if a ∈ ([] : List Transaction).map Transaction.recipient then t a else u a)
        = u from funext fun a => by simp]
      rfl
  | cons tx rest ih =>
      intro t t' u i m0 M rs hm0 hbound hpair hc hu hM
      simp only [Accounts.process_recipients_go] at hc
      rw [ReceiptsMap.remove_fst, hm0] at hc
      have hm0' : ∀ k, (m0.remove (i % 65536)).2 k = none := by
        intro k
        by_cases hk : k = i % 65536
        · subst hk; exact ReceiptsMap.remove_snd_same m0 _
        · rw [ReceiptsMap.remove_snd_ne m0 _ k hk]; exact hm0 k
      have hpair2 : (tx.recipient :: rest.map Transaction.recipient).Pairwise
          (fun a b => a ≠ b) := by simpa using hpair
      have hpair' := List.pairwise_cons.mp hpair2
      have hhead : ∀ tx' ∈ rest, tx.recipient ≠ tx'.recipient := by
        intro tx' htx'
        exact hpair'.1 tx'.recipient (List.mem_map_of_mem Transaction.recipient htx')
      have hpairrest : (rest.map Transaction.recipient).Pairwise (fun a b => a ≠ b) := hpair'.2
      split at hc
      · simp only [Prod.mk.injEq] at hc
        exact absurd hc.1 (by simp)
      · rename_i data? t1 heq
        split at hc
        · simp only [Prod.mk.injEq] at hc
          exact absurd hc.1 (by simp)
        · rename_i rs' t2 heq2
          obtain ⟨htych, a1, hop1, ht1⟩ := Accounts.process_transaction_ok _ _ _ _ _ _ _ _ _ heq
          subst ht1
          have ht' : t2 = t' := by
            rcases data? with - | d <;> simp only [Prod.mk.injEq] at hc <;> exact hc.2
          have hrs : rs = (match data? with
              | some d => Receipt.transaction (i % 65536) false d :: rs'
              | none => rs') := by
            rcases data? with - | d <;>
              simp only [Prod.mk.injEq, Except.ok.injEq] at hc <;> exact hc.1.symm
          have hkeep : t2 tx.recipient = a1 := by
            rw [Accounts.process_recipients_go_frame _ _ rest _ _ _ _ _ heq2 tx.recipient hhead]
            exact Trie.put_batch_same t tx.recipient a1
          have hkey : ∀ j, j < rest.length → (i % 65536) ≠ ((i + 1 + j) % 65536) := by
            intro j hj
            simp only [List.length_cons] at hbound
            rw [Nat.mod_eq_of_lt (by omega), Nat.mod_eq_of_lt (by omega)]
            omega
          have hnone : lastTxData false (i % 65536) rs' = none := by
            apply lastTxData_eq_none
            intro d0 hmem
            obtain ⟨j, d1, hj, hre⟩ :=
              Accounts.process_recipients_go_receipts_shape _ _ rest _ _ _ _ _ heq2 _ hmem
            injection hre with h1 h2 h3
            exact hkey j hj h1
          have hrr : M (i % 65536) = data? := by
            rw [hM, hrs]
            rcases data? with - | d
            · exact hnone
            · rw [lastTxData_cons, hnone]
              simp [txStep]
          have hu1 : u tx.recipient = a1 := by
            rw [hu tx (List.mem_cons_self tx rest), ← ht']
            exact hkeep
          have hopr : revertRecipientOp ops timestamp (u tx.recipient) tx block_height
              (M (i % 65536)) = Except.ok (t tx.recipient, none) := by
            show (ops.revert_incoming_transaction (u tx.recipient) tx block_height timestamp
              (M (i % 65536))).map (fun a => (a, none)) = _
            rw [hu1, hrr, hInv (t tx.recipient) tx a1 data? hop1]
            rfl
          have hPT : Accounts.process_transaction (revertRecipientOp ops timestamp) u
              tx.recipient
              (if tx.flags_contract_creation = true then none else some tx.recipient_type)
              tx block_height (M (i % 65536)) =
              (Except.ok none, u.put_batch tx.recipient (t tx.recipient)) := by
            apply Accounts.process_transaction_eq_ok
            · intro ty hty'
              cases hf : tx.flags_contract_creation with
              | true => rw [hf, if_pos rfl] at hty'; cases hty'
              | false =>
                  rw [hf] at hty'
                  simp only [Bool.false_eq_true, if_false, Option.some.injEq] at hty'
                  subst hty'
                  rw [hu1, hTy (t tx.recipient) tx a1 data? hop1]
                  exact htych tx.recipient_type (by rw [hf]; simp)
            · exact hopr
          have hM' : ∀ k, (M.remove (i % 65536)).2 k = lastTxData false k rs' := by
            intro k
            by_cases hk : k = i % 65536
            · subst hk
              rw [ReceiptsMap.remove_snd_same, hnone]
            · rw [ReceiptsMap.remove_snd_ne M _ k hk, hM, hrs]
              rcases data? with - | d
              · rfl
              · rw [lastTxData_cons]
                cases hrest : lastTxData false k rs' with
                | some d' => rfl
                | none => simp [txStep, Ne.symm hk]
          have hu' : ∀ tx' ∈ rest, (u.put_batch tx.recipient (t tx.recipient)) tx'.recipient
              = t2 tx'.recipient := by
            intro tx' htx'
            rw [Trie.put_batch_ne _ _ _ _ (Ne.symm (hhead tx' htx')),
              hu tx' (List.mem_cons_of_mem tx htx'), ht']
          have hrec := ih (t.put_batch tx.recipient a1) t2
            (u.put_batch tx.recipient (t tx.recipient)) (i + 1) (m0.remove (i % 65536)).2
            (M.remove (i % 65536)).2 rs' hm0'
            (by simp only [List.length_cons] at hbound; omega) hpairrest heq2 hu' hM'
          have hfun : (fun a => if a ∈ rest.map Transaction.recipient
              then (t.put_batch tx.recipient a1) a
              else (u.put_batch tx.recipient (t tx.recipient)) a) =
              (fun a => if a ∈ (tx :: rest).map Transaction.recipient then t a else u a) := by
            funext a
            by_cases ha : a ∈ rest.map Transaction.recipient
            · have hne : a ≠ tx.recipient := by
                obtain ⟨tx'', htx'', rfl⟩ := List.mem_map.mp ha
                exact Ne.symm (hhead tx'' htx'')
              rw [if_pos ha, Trie.put_batch_ne _ _ _ _ hne,
                if_pos (by rw [List.map_cons]; exact List.mem_cons_of_mem _ ha)]
            · rw [if_neg ha]
              by_cases hae : a = tx.recipient
              · subst hae
                rw [Trie.put_batch_same,
                  if_pos (by rw [List.map_cons]; exact List.mem_cons_self _ _)]
              · rw [Trie.put_batch_ne _ _ _ _ hae,
                  if_neg (by rw [List.map_cons]; simp [hae, ha])]
          simp only [Accounts.process_recipients_go, ReceiptsMap.remove_fst, hPT, hrec, hfun]

/-- Reverting an inherent phase (all inherents carrying the same
`pre_transactions` flag `b`) with the receipts its commit produced
restores every target account, provided targets are pairwise distinct,
at most 65536 inherents are processed, and the account variant's
`revert_inherent` is the exact inverse of `commit_inherent`. -/
theorem Accounts.process_inherents_roundtrip (ops : AccountOps) (block_height timestamp : Nat)
    (b : Bool)
    (hInv : ∀ a inh a' d?,
      ops.commit_inherent a inh block_height timestamp = Except.ok (a', d?) →
      ops.revert_inherent a' inh block_height timestamp d? = Except.ok a) :
    ∀ (inhs : List Inherent) (t t' u : Trie) (i : Nat) (m0 M : ReceiptsMap)
      (rs : List Receipt),
    (∀ inh ∈ inhs, inh.is_pre_transactions = b) →
    (∀ k, m0 k = none) →
    i + inhs.length ≤ 65536 →
    (inhs.map Inherent.target).Pairwise (fun a b => a ≠ b) →
    Accounts.process_inherents_go (commitInherentOp ops block_height timestamp) t inhs i m0 =
      (Except.ok rs, t') →
    (∀ inh ∈ inhs, u inh.target = t' inh.target) →
    (∀ k, M k = lastInhData b k rs) →
    Accounts.process_inherents_go (revertInherentOp ops block_height timestamp) u inhs i M =
      (Except.ok [], fun a => if a ∈ inhs.map Inherent.target then t a else u a) := by
  intro inhs
  induction inhs with
  | nil =>
      intro t t' u i m0 M rs hb hm0 hbound hpair hc hu hM
      rw [show (fun a => if a ∈ ([] : List Inherent).map Inherent.target then t a else u a)
        = u from funext fun a => by simp]
      rfl
  | cons inh rest ih =>
      intro t t' u i m0 M rs hb hm0 hbound hpair hc hu hM
      simp only [Accounts.process_inherents_go] at hc
      rw [ReceiptsMap.remove_fst, hm0] at hc
      have hm0' : ∀ k, (m0.remove (i % 65536)).2 k = none := by
        intro k
        by_cases hk : k = i % 65536
        · subst hk; exact ReceiptsMap.remove_snd_same m0 _
        · rw [ReceiptsMap.remove_snd_ne m0 _ k hk]; exact hm0 k
      have hbhead : inh.is_pre_transactions = b := hb inh (List.mem_cons_self inh rest)
      have hbrest : ∀ inh' ∈ rest, inh'.is_pre_transactions = b :=
        fun inh' h' => hb inh' (List.mem_cons_of_mem inh h')
      have hpair2 : (inh.target :: rest.map Inherent.target).Pairwise
          (fun a b => a ≠ b) := by simpa using hpair
      have hpair' := List.pairwise_cons.mp hpair2
      have hhead : ∀ inh' ∈ rest, inh.target ≠ inh'.target := by
        intro inh' hinh'
        exact hpair'.1 inh'.target (List.mem_map_of_mem Inherent.target hinh')
      have hpairrest : (rest.map Inherent.target).Pairwise (fun a b => a ≠ b) := hpair'.2
      split at hc
      · simp only [Prod.mk.injEq] at hc
        exact absurd hc.1 (by simp)
      · rename_i data? t1 heq
        split at hc
        · simp only [Prod.mk.injEq] at hc
          exact absurd hc.1 (by simp)
        · rename_i rs' t2 heq2
          obtain ⟨a1, hop1, ht1⟩ := Accounts.process_inherent_ok _ _ _ _ _ _ heq
          subst ht1
          have ht' : t2 = t' := by
            rcases data? with - | d <;> simp only [Prod.mk.injEq] at hc <;> exact hc.2
          have hrs : rs = (match data? with
              | some d => Receipt.inherent (i % 65536) inh.is_pre_transactions d :: rs'
              | none => rs') := by
            rcases data? with - | d <;>
              simp only [Prod.mk.injEq, Except.ok.injEq] at hc <;> exact hc.1.symm
          have hkeep : t2 inh.target = a1 := by
            rw [Accounts.process_inherents_go_frame _ rest _ _ _ _ _ heq2 inh.target hhead]
            exact Trie.put_batch_same t inh.target a1
          have hkey : ∀ j, j < rest.length → (i % 65536) ≠ ((i + 1 + j) % 65536) := by
            intro j hj
            simp only [List.length_cons] at hbound
            rw [Nat.mod_eq_of_lt (by omega), Nat.mod_eq_of_lt (by omega)]
            omega
          have hnone : lastInhData b (i % 65536) rs' = none := by
            apply lastInhData_eq_none
            intro d0 hmem
            obtain ⟨j, d1, hj, hre⟩ :=
              Accounts.process_inherents_go_receipts_shape _ b rest _ _ _ _ _ hbrest heq2 _ hmem
            injection hre with h1 h2 h3
            exact hkey j hj h1
          have hrr : M (i % 65536) = data? := by
            rw [hM, hrs]
            rcases data? with - | d
            · exact hnone
            · rw [lastInhData_cons, hnone]
              simp [inhStep, hbhead]
          have hu1 : u inh.target = a1 := by
            rw [hu inh (List.mem_cons_self inh rest), ← ht']
            exact hkeep
          have hopr : revertInherentOp ops block_height timestamp (u inh.target) inh
              (M (i % 65536)) = Except.ok (t inh.target, none) := by
            show (ops.revert_inherent (u inh.target) inh block_height timestamp
              (M (i % 65536))).map (fun a => (a, none)) = _
            rw [hu1, hrr, hInv (t inh.target) inh a1 data? hop1]
            rfl
          have hPT : Accounts.process_inherent (revertInherentOp ops block_height timestamp) u
              inh (M (i % 65536)) =
              (Except.ok none, u.put_batch inh.target (t inh.target)) := by
            exact Accounts.process_inherent_eq_ok _ _ _ _ _ _ hopr
          have hM' : ∀ k, (M.remove (i % 65536)).2 k = lastInhData b k rs' := by
            intro k
            by_cases hk : k = i % 65536
            · subst hk
              rw [ReceiptsMap.remove_snd_same, hnone]
            · rw [ReceiptsMap.remove_snd_ne M _ k hk, hM, hrs]
              rcases data? with - | d
              · rfl
              · rw [lastInhData_cons]
                cases hrest : lastInhData b k rs' with
                | some d' => rfl
                | none => simp [inhStep, Ne.symm hk]
          have hu' : ∀ inh' ∈ rest, (u.put_batch inh.target (t inh.target)) inh'.target
              = t2 inh'.target := by
            intro inh' hinh'
            rw [Trie.put_batch_ne _ _ _ _ (Ne.symm (hhead inh' hinh')),
              hu inh' (List.mem_cons_of_mem inh hinh'), ht']
          have hrec := ih (t.put_batch inh.target a1) t2
            (u.put_batch inh.target (t inh.target)) (i + 1) (m0.remove (i % 65536)).2
            (M.remove (i % 65536)).2 rs' hbrest hm0'
            (by simp only [List.length_cons] at hbound; omega) hpairrest heq2 hu' hM'
          have hfun : (fun a => if a ∈ rest.map Inherent.target
              then (t.put_batch inh.target a1) a
              else (u.put_batch inh.target (t inh.target)) a) =
              (fun a => if a ∈ (inh :: rest).map Inherent.target then t a else u a) := by
            funext a
            by_cases ha : a ∈ rest.map Inherent.target
            · have hne : a ≠ inh.target := by
                obtain ⟨inh'', hinh'', rfl⟩ := List.mem_map.mp ha
                exact Ne.symm (hhead inh'' hinh'')
              rw [if_pos ha, Trie.put_batch_ne _ _ _ _ hne,
                if_pos (by rw [List.map_cons]; exact List.mem_cons_of_mem _ ha)]
            · rw [if_neg ha]
              by_cases hae : a = inh.target
              · subst hae
                rw [Trie.put_batch_same,
                  if_pos (by rw [List.map_cons]; exact List.mem_cons_self _ _)]
              · rw [Trie.put_batch_ne _ _ _ _ hae,
                  if_neg (by rw [List.map_cons]; simp [hae, ha])]
          simp only [Accounts.process_inherents_go, ReceiptsMap.remove_fst, hPT, hrec, hfun]

/-- Reverting the contract-creation phase restores every flagged
recipient account, provided flagged recipient addresses are pairwise
distinct, each flagged recipient account is (at phase entry) a plain
basic account, and `new_contract` constructs an account of the claimed
type carrying the given balance.  The reversal may start from any trie
agreeing with the creation's result on the flagged recipients. -/
theorem Accounts.contracts_roundtrip (ops : AccountOps) (block_height timestamp : Nat)
    (hNC : ∀ ty bal tx c,
      ops.new_contract ty bal tx block_height timestamp = Except.ok c →
      c.account_type = ty ∧ c.balance = bal) :
    ∀ (txs : List Transaction) (t t' u : Trie),
    ((txs.filter (fun tx => tx.flags_contract_creation)).map Transaction.recipient).Pairwise
      (fun a b => a ≠ b) →
    (∀ tx ∈ txs, tx.flags_contract_creation = true →
      t tx.recipient = Account.new_basic (t tx.recipient).balance) →
    Accounts.create_contracts ops t txs block_height timestamp = (Except.ok (), t') →
    (∀ tx ∈ txs, tx.flags_contract_creation = true → u tx.recipient = t' tx.recipient) →
    Accounts.revert_contracts ops u txs block_height timestamp =
      (Except.ok (), fun a =>
        if a ∈ (txs.filter (fun tx => tx.flags_contract_creation)).map Transaction.recipient
        then t a else u a) := by
  intro txs
  induction txs with
  | nil =>
      intro t t' u hpair hbasic hc hu
      rw [show (fun a => if a ∈ (List.filter (fun tx => tx.flags_contract_creation)
          []).map Transaction.recipient then t a else u a) = u from funext fun a => by simp]
      rfl
  | cons tx rest ih =>
      intro t t' u hpair hbasic hc hu
      simp only [Accounts.create_contracts] at hc
      cases hf : tx.flags_contract_creation with
      | false =>
          rw [hf] at hc
          simp only [Bool.false_eq_true, if_false] at hc
          have hfilter : (tx :: rest).filter (fun tx => tx.flags_contract_creation) =
              rest.filter (fun tx => tx.flags_contract_creation) := by
            simp [List.filter_cons, hf]
          have hrec := ih t t' u (by rw [hfilter] at hpair; exact hpair)
            (fun tx' htx' hf' => hbasic tx' (List.mem_cons_of_mem tx htx') hf') hc
            (fun tx' htx' hf' => hu tx' (List.mem_cons_of_mem tx htx') hf')
          show Accounts.revert_contracts ops u (tx :: rest) block_height timestamp = _
          simp only [Accounts.revert_contracts, hf, Bool.false_eq_true, if_false]
          rw [hrec, hfilter]
      | true =>
          rw [hf] at hc
          simp only [if_true] at hc
          split at hc
          · simp only [Prod.mk.injEq] at hc
            exact absurd hc.1 (by simp)
          · rename_i u0 t1 heq
            -- unpack the creation of the head contract
            simp only [Accounts.create_contract, Trie.get] at heq
            rcases hnc : ops.new_contract tx.recipient_type (t tx.recipient).balance tx
                block_height timestamp with e | c
            · rw [hnc] at heq
              simp only [Prod.mk.injEq] at heq
              exact absurd heq.1 (by simp)
            rw [hnc] at heq
            simp only [Prod.mk.injEq] at heq
            obtain ⟨-, ht1⟩ := heq
            obtain ⟨hcty, hcbal⟩ := hNC _ _ _ _ hnc
            have hfilter : (tx :: rest).filter (fun tx => tx.flags_contract_creation) =
                tx :: rest.filter (fun tx => tx.flags_contract_creation) := by
              simp [List.filter_cons, hf]
            have hpair2 : (tx.recipient ::
                (rest.filter (fun tx => tx.flags_contract_creation)).map
                  Transaction.recipient).Pairwise (fun a b => a ≠ b) := by
              rw [hfilter] at hpair
              simpa using hpair
            have hpair' := List.pairwise_cons.mp hpair2
            have hhead : ∀ tx' ∈ rest, tx'.flags_contract_creation = true →
                tx.recipient ≠ tx'.recipient := by
              intro tx' htx' hf'
              exact hpair'.1 tx'.recipient (List.mem_map_of_mem Transaction.recipient
                (List.mem_filter.mpr ⟨htx', by rw [hf']⟩))
            -- the creation's final trie still holds the head contract
            have hkeep : t' tx.recipient = c := by
              rw [Accounts.create_contracts_frame _ rest _ _ _ _ _ hc tx.recipient hhead,
                ← ht1]
              exact Trie.put_batch_same t tx.recipient c
            have hu1 : u tx.recipient = c := by
              rw [hu tx (List.mem_cons_self tx rest) hf]
              exact hkeep
            -- the head reversal writes back the original basic account
            have hbhead := hbasic tx (List.mem_cons_self tx rest) hf
            have hRC : Accounts.revert_contract ops u tx block_height timestamp =
                (Except.ok (), u.put_batch tx.recipient (t tx.recipient)) := by
              simp only [Accounts.revert_contract, Trie.get, hu1, hcty, Account.account_type]
              rw [if_pos (by rw [← Account.account_type]; exact hcty)]
              rw [hcbal, ← hbhead]
            -- tail reversal via the induction hypothesis
            have hbasic' : ∀ tx' ∈ rest, tx'.flags_contract_creation = true →
                t1 tx'.recipient = Account.new_basic (t1 tx'.recipient).balance := by
              intro tx' htx' hf'
              rw [← ht1, Trie.put_batch_ne _ _ _ _ (Ne.symm (hhead tx' htx' hf'))]
              exact hbasic tx' (List.mem_cons_of_mem tx htx') hf'
            have hu' : ∀ tx' ∈ rest, tx'.flags_contract_creation = true →
                (u.put_batch tx.recipient (t tx.recipient)) tx'.recipient
                = t' tx'.recipient := by
              intro tx' htx' hf'
              rw [Trie.put_batch_ne _ _ _ _ (Ne.symm (hhead tx' htx' hf')),
                hu tx' (List.mem_cons_of_mem tx htx') hf']
            have hrec := ih t1 t' (u.put_batch tx.recipient (t tx.recipient)) hpair'.2
              hbasic' hc hu'
            have hfun : (fun a =>
                if a ∈ (rest.filter (fun tx => tx.flags_contract_creation)).map
                  Transaction.recipient
                then t1 a else (u.put_batch tx.recipient (t tx.recipient)) a) =
                (fun a => if a ∈ ((tx :: rest).filter
                    (fun tx => tx.flags_contract_creation)).map Transaction.recipient
                  then t a else u a) := by
              funext a
              rw [hfilter, List.map_cons]
              by_cases ha : a ∈ (rest.filter (fun tx => tx.flags_contract_creation)).map
                  Transaction.recipient
              · have hne : a ≠ tx.recipient := by
                  obtain ⟨tx'', htx'', rfl⟩ := List.mem_map.mp ha
                  obtain ⟨hmem, hflag⟩ := List.mem_filter.mp htx''
                  exact Ne.symm (hhead tx'' hmem (by simpa using hflag))
                rw [if_pos ha, ← ht1, Trie.put_batch_ne _ _ _ _ hne,
                  if_pos (List.mem_cons_of_mem _ ha)]
              · rw [if_neg ha]
                by_cases hae : a = tx.recipient
                · subst hae
                  rw [Trie.put_batch_same, if_pos (List.mem_cons_self _ _)]
                · rw [Trie.put_batch_ne _ _ _ _ hae, if_neg (by simp [hae, ha])]
            show Accounts.revert_contracts ops u (tx :: rest) block_height timestamp = _
            simp only [Accounts.revert_contracts, hf, if_true, hRC, hrec, hfun]

/-- After a committed recipient phase with pairwise-distinct recipients,
every CONTRACT_CREATION recipient holds the account its incoming-commit
produced; if that method yields plain basic accounts on flagged
transactions, the phase-exit trie holds plain basic accounts there. -/
theorem Accounts.process_recipients_go_basic (ops : AccountOps) (block_height timestamp : Nat)
    (hBasicIn : ∀ a tx a' d?, tx.flags_contract_creation = true →
      ops.commit_incoming_transaction a tx block_height timestamp = Except.ok (a', d?) →
      a' = Account.new_basic a'.balance) :
    ∀ (txs : List Transaction) (t : Trie) (i : Nat) (m : ReceiptsMap)
      (rs : List Receipt) (t' : Trie),
    (txs.map Transaction.recipient).Pairwise (fun a b => a ≠ b) →
    Accounts.process_recipients_go (commitRecipientOp ops timestamp) block_height t txs i m =
      (Except.ok rs, t') →
    ∀ tx ∈ txs, tx.flags_contract_creation = true →
      t' tx.recipient = Account.new_basic (t' tx.recipient).balance := by
  intro txs
  induction txs with
  | nil =>
      intro t i m rs t' hpair hc tx htx
      cases htx
  | cons tx rest ih =>
      intro t i m rs t' hpair hc tx' htx' hf'
      simp only [Accounts.process_recipients_go] at hc
      have hpair2 : (tx.recipient :: rest.map Transaction.recipient).Pairwise
          (fun a b => a ≠ b) := by simpa using hpair
      have hpair' := List.pairwise_cons.mp hpair2
      have hhead : ∀ tx'' ∈ rest, tx.recipient ≠ tx''.recipient := by
        intro tx'' htx''
        exact hpair'.1 tx''.recipient (List.mem_map_of_mem Transaction.recipient htx'')
      split at hc
      · simp only [Prod.mk.injEq] at hc
        exact absurd hc.1 (by simp)
      · rename_i data? t1 heq
        split at hc
        · simp only [Prod.mk.injEq] at hc
          exact absurd hc.1 (by simp)
        · rename_i rs' t2 heq2
          have ht' : t2 = t' := by
            rcases data? with - | d <;> simp only [Prod.mk.injEq] at hc <;> exact hc.2
          obtain ⟨-, a1, hop1, ht1⟩ := Accounts.process_transaction_ok _ _ _ _ _ _ _ _ _ heq
          subst ht1
          rcases List.mem_cons.mp htx' with rfl | hmem
          · -- the head transaction itself
            have hkeep : t2 tx'.recipient = a1 := by
              rw [Accounts.process_recipients_go_frame _ _ rest _ _ _ _ _ heq2
                tx'.recipient hhead]
              exact Trie.put_batch_same t tx'.recipient a1
            have ha1 : a1 = Account.new_basic a1.balance :=
              hBasicIn (t tx'.recipient) tx' a1 data? hf' hop1
            rw [← ht', hkeep]
            exact ha1
          · rw [← ht']
            exact ih _ (i + 1) _ rs' t2 hpair'.2 heq2 tx' hmem hf'

/-- Commit followed by revert (with the receipts commit returned) is the
identity on the transaction's trie state, under: exact type-preserving
inverses for the account capability methods, contract constructors
honouring claimed type and balance, incoming commits of flagged
transactions producing plain basic accounts, per-phase pairwise-distinct
addresses, and at most 65536 operations per phase. -/
theorem Accounts.commit_revert_roundtrip (ops : AccountOps) (t : Trie)
    (transactions : List Transaction) (inherents : List Inherent)
    (block_height timestamp : Nat) (receipts : Receipts) (t5 : Trie)
    (hInvOut : ∀ a tx a' d?,
      ops.commit_outgoing_transaction a tx block_height timestamp = Except.ok (a', d?) →
      ops.revert_outgoing_transaction a' tx block_height timestamp d? = Except.ok a)
    (hTyOut : ∀ a tx a' d?,
      ops.commit_outgoing_transaction a tx block_height timestamp = Except.ok (a', d?) →
      a'.account_type = a.account_type)
    (hInvIn : ∀ a tx a' d?,
      ops.commit_incoming_transaction a tx block_height timestamp = Except.ok (a', d?) →
      ops.revert_incoming_transaction a' tx block_height timestamp d? = Except.ok a)
    (hTyIn : ∀ a tx a' d?,
      ops.commit_incoming_transaction a tx block_height timestamp = Except.ok (a', d?) →
      a'.account_type = a.account_type)
    (hInvInh : ∀ a inh a' d?,
      ops.commit_inherent a inh block_height timestamp = Except.ok (a', d?) →
      ops.revert_inherent a' inh block_height timestamp d? = Except.ok a)
    (hNC : ∀ ty bal tx c,
      ops.new_contract ty bal tx block_height timestamp = Except.ok c →
      c.account_type = ty ∧ c.balance = bal)
    (hBasicIn : ∀ a tx a' d?, tx.flags_contract_creation = true →
      ops.commit_incoming_transaction a tx block_height timestamp = Except.ok (a', d?) →
      a' = Account.new_basic a'.balance)
    (hlen_tx : transactions.length ≤ 65536)
    (hlen_pre : (inherents.filter (fun i => i.is_pre_transactions)).length ≤ 65536)
    (hlen_post : (inherents.filter (fun i => ¬ i.is_pre_transactions)).length ≤ 65536)
    (hdist_s : (transactions.map Transaction.sender).Pairwise (fun a b => a ≠ b))
    (hdist_r : (transactions.map Transaction.recipient).Pairwise (fun a b => a ≠ b))
    (hdist_pre : ((inherents.filter (fun i => i.is_pre_transactions)).map
      Inherent.target).Pairwise (fun a b => a ≠ b))
    (hdist_post : ((inherents.filter (fun i => ¬ i.is_pre_transactions)).map
      Inherent.target).Pairwise (fun a b => a ≠ b))
    (hcommit : Accounts.commit ops t transactions inherents block_height timestamp =
      (Except.ok receipts, t5)) :
    Accounts.revert ops t5 transactions inherents block_height timestamp receipts =
      (Except.ok (), t) := by
  simp only [Accounts.commit, Accounts.process_inherents, Accounts.process_senders,
    Accounts.process_recipients] at hcommit
  split at hcommit
  · simp only [Prod.mk.injEq] at hcommit
    exact absurd hcommit.1 (by simp)
  rename_i r1 t1 heq1
  split at hcommit
  · simp only [Prod.mk.injEq] at hcommit
    exact absurd hcommit.1 (by simp)
  rename_i r2 t2 heq2
  split at hcommit
  · simp only [Prod.mk.injEq] at hcommit
    exact absurd hcommit.1 (by simp)
  rename_i r3 t3 heq3
  split at hcommit
  · simp only [Prod.mk.injEq] at hcommit
    exact absurd hcommit.1 (by simp)
  rename_i u0 t4 heq4
  split at hcommit
  · simp only [Prod.mk.injEq] at hcommit
    exact absurd hcommit.1 (by simp)
  rename_i r4 t5a heq5
  simp only [Prod.mk.injEq, Except.ok.injEq] at hcommit
  obtain ⟨hrec, ht5⟩ := hcommit
  subst ht5
  subst hrec
  -- inherent flags of the two filtered phases
  have hbpre : ∀ inh ∈ inherents.filter (fun i => i.is_pre_transactions),
      inh.is_pre_transactions = true := by
    intro inh h
    exact (List.mem_filter.mp h).2
  have hbpost : ∀ inh ∈ inherents.filter (fun i => ¬ i.is_pre_transactions),
      inh.is_pre_transactions = false := by
    intro inh h
    have := (List.mem_filter.mp h).2
    simpa using this
  -- shapes of the four per-phase receipt lists
  have hshape1 := Accounts.process_inherents_go_receipts_shape
    (commitInherentOp ops block_height timestamp) true _ _ _ _ _ _ hbpre heq1
  have hshape2 := Accounts.process_senders_go_receipts_shape
    (commitSenderOp ops timestamp) block_height _ _ _ _ _ _ heq2
  have hshape3 := Accounts.process_recipients_go_receipts_shape
    (commitRecipientOp ops timestamp) block_height _ _ _ _ _ _ heq3
  have hshape4 := Accounts.process_inherents_go_receipts_shape
    (commitInherentOp ops block_height timestamp) false _ _ _ _ _ _ hbpost heq5
  -- lookup collapse: each prepared map sees only its own phase's receipts
  have hM2 : ∀ k, (Accounts.prepare_receipts (Receipts.mk (r1 ++ r2 ++ r3 ++ r4))).1 k =
      lastTxData true k r2 := by
    intro k
    rw [(Accounts.prepare_receipts_spec (r1 ++ r2 ++ r3 ++ r4) k).1]
    rw [lastTxData_append, lastTxData_eq_none true k r4 ?h4, lastTxData_append,
      lastTxData_eq_none true k r3 ?h3, lastTxData_append,
      lastTxData_eq_none true k r1 ?h1]
    case h4 =>
      intro d hmem
      obtain ⟨j, d', hj, hre⟩ := hshape4 _ hmem
      simp at hre
    case h3 =>
      intro d hmem
      obtain ⟨j, d', hj, hre⟩ := hshape3 _ hmem
      simp at hre
    case h1 =>
      intro d hmem
      obtain ⟨j, d', hj, hre⟩ := hshape1 _ hmem
      simp at hre
    cases lastTxData true k r2 <;> rfl
  have hM3 : ∀ k, (Accounts.prepare_receipts (Receipts.mk (r1 ++ r2 ++ r3 ++ r4))).2.1 k =
      lastTxData false k r3 := by
    intro k
    rw [(Accounts.prepare_receipts_spec (r1 ++ r2 ++ r3 ++ r4) k).2.1]
    rw [lastTxData_append, lastTxData_eq_none false k r4 ?h4, lastTxData_append]
    case h4 =>
      intro d hmem
      obtain ⟨j, d', hj, hre⟩ := hshape4 _ hmem
      simp at hre
    rw [lastTxData_append, lastTxData_eq_none false k r2 ?h2,
      lastTxData_eq_none false k r1 ?h1]
    case h2 =>
      intro d hmem
      obtain ⟨j, d', hj, hre⟩ := hshape2 _ hmem
      simp at hre
    case h1 =>
      intro d hmem
      obtain ⟨j, d', hj, hre⟩ := hshape1 _ hmem
      simp at hre
    cases lastTxData false k r3 <;> rfl
  have hM1 : ∀ k, (Accounts.prepare_receipts (Receipts.mk (r1 ++ r2 ++ r3 ++ r4))).2.2.1 k =
      lastInhData true k r1 := by
    intro k
    rw [(Accounts.prepare_receipts_spec (r1 ++ r2 ++ r3 ++ r4) k).2.2.1]
    rw [lastInhData_append, lastInhData_eq_none true k r4 ?h4, lastInhData_append,
      lastInhData_eq_none true k r3 ?h3, lastInhData_append,
      lastInhData_eq_none true k r2 ?h2]
    case h4 =>
      intro d hmem
      obtain ⟨j, d', hj, hre⟩ := hshape4 _ hmem
      simp at hre
    case h3 =>
      intro d hmem
      obtain ⟨j, d', hj, hre⟩ := hshape3 _ hmem
      simp at hre
    case h2 =>
      intro d hmem
      obtain ⟨j, d', hj, hre⟩ := hshape2 _ hmem
      simp at hre
  have hM4 : ∀ k, (Accounts.prepare_receipts (Receipts.mk (r1 ++ r2 ++ r3 ++ r4))).2.2.2 k =
      lastInhData false k r4 := by
    intro k
    rw [(Accounts.prepare_receipts_spec (r1 ++ r2 ++ r3 ++ r4) k).2.2.2]
    rw [lastInhData_append]
    have h123 : lastInhData false k (r1 ++ r2 ++ r3) = none := by
      rw [lastInhData_append, lastInhData_eq_none false k r3 ?h3, lastInhData_append,
        lastInhData_eq_none false k r2 ?h2, lastInhData_eq_none false k r1 ?h1]
      case h3 =>
        intro d hmem
        obtain ⟨j, d', hj, hre⟩ := hshape3 _ hmem
        simp at hre
      case h2 =>
        intro d hmem
        obtain ⟨j, d', hj, hre⟩ := hshape2 _ hmem
        simp at hre
      case h1 =>
        intro d hmem
        obtain ⟨j, d', hj, hre⟩ := hshape1 _ hmem
        simp at hre
    rw [h123]
    cases lastInhData false k r4 <;> rfl
  -- phase 5 reversal: post-transaction inherents
  have step5 := Accounts.process_inherents_roundtrip ops block_height timestamp false hInvInh
    (inherents.filter (fun i => ¬ i.is_pre_transactions)) t4 t5a t5a 0 ReceiptsMap.empty
    ((Accounts.prepare_receipts (Receipts.mk (r1 ++ r2 ++ r3 ++ r4))).2.2.2) r4
    hbpost (fun k => rfl) (by simpa using hlen_post) hdist_post heq5
    (fun inh h => rfl) hM4
  have hcol5 : (fun a =>
      if a ∈ (inherents.filter (fun i => ¬ i.is_pre_transactions)).map Inherent.target
      then t4 a else t5a a) = t4 := by
    funext a
    by_cases ha : a ∈ (inherents.filter (fun i => ¬ i.is_pre_transactions)).map Inherent.target
    · rw [if_pos ha]
    · rw [if_neg ha]
      refine Accounts.process_inherents_go_frame _ _ _ _ _ _ _ heq5 a ?_
      intro inh hinh hae
      exact ha (by rw [hae]; exact List.mem_map_of_mem Inherent.target hinh)
  rw [hcol5] at step5
  -- phase 4 reversal: contract reversal
  have hdist_c : ((transactions.filter (fun tx => tx.flags_contract_creation)).map
      Transaction.recipient).Pairwise (fun a b => a ≠ b) :=
    List.Pairwise.sublist (List.Sublist.map Transaction.recipient (List.filter_sublist transactions)) hdist_r
  have hbasic3 := Accounts.process_recipients_go_basic ops block_height timestamp hBasicIn
    transactions t2 0 ReceiptsMap.empty r3 t3 hdist_r heq3
  have step4 := Accounts.contracts_roundtrip ops block_height timestamp hNC transactions
    t3 t4 t4 hdist_c hbasic3 heq4 (fun tx h hf => rfl)
  have hcol4 : (fun a =>
      if a ∈ (transactions.filter (fun tx => tx.flags_contract_creation)).map
        Transaction.recipient
      then t3 a else t4 a) = t3 := by
    funext a
    by_cases ha : a ∈ (transactions.filter (fun tx => tx.flags_contract_creation)).map
        Transaction.recipient
    · rw [if_pos ha]
    · rw [if_neg ha]
      refine Accounts.create_contracts_frame _ _ _ _ _ _ _ heq4 a ?_
      intro tx htx hf hae
      exact ha (by
        rw [hae]
        exact List.mem_map_of_mem Transaction.recipient
          (List.mem_filter.mpr ⟨htx, by rw [hf]⟩))
  rw [hcol4] at step4
  -- phase 3 reversal: recipients
  have step3 := Accounts.process_recipients_roundtrip ops block_height timestamp hInvIn hTyIn
    transactions t2 t3 t3 0 ReceiptsMap.empty
    ((Accounts.prepare_receipts (Receipts.mk (r1 ++ r2 ++ r3 ++ r4))).2.1) r3
    (fun k => rfl) (by simpa using hlen_tx) hdist_r heq3 (fun tx h => rfl) hM3
  have hcol3 : (fun a => if a ∈ transactions.map Transaction.recipient then t2 a else t3 a)
      = t2 := by
    funext a
    by_cases ha : a ∈ transactions.map Transaction.recipient
    · rw [if_pos ha]
    · rw [if_neg ha]
      refine Accounts.process_recipients_go_frame _ _ _ _ _ _ _ _ heq3 a ?_
      intro tx htx hae
      exact ha (by rw [hae]; exact List.mem_map_of_mem Transaction.recipient htx)
  rw [hcol3] at step3
  -- phase 2 reversal: senders
  have step2 := Accounts.process_senders_roundtrip ops block_height timestamp hInvOut hTyOut
    transactions t1 t2 t2 0 ReceiptsMap.empty
    ((Accounts.prepare_receipts (Receipts.mk (r1 ++ r2 ++ r3 ++ r4))).1) r2
    (fun k => rfl) (by simpa using hlen_tx) hdist_s heq2 (fun tx h => rfl) hM2
  have hcol2 : (fun a => if a ∈ transactions.map Transaction.sender then t1 a else t2 a)
      = t1 := by
    funext a
    by_cases ha : a ∈ transactions.map Transaction.sender
    · rw [if_pos ha]
    · rw [if_neg ha]
      refine Accounts.process_senders_go_frame _ _ _ _ _ _ _ _ heq2 a ?_
      intro tx htx hae
      exact ha (by rw [hae]; exact List.mem_map_of_mem Transaction.sender htx)
  rw [hcol2] at step2
  -- phase 1 reversal: pre-transaction inherents
  have step1 := Accounts.process_inherents_roundtrip ops block_height timestamp true hInvInh
    (inherents.filter (fun i => i.is_pre_transactions)) t t1 t1 0 ReceiptsMap.empty
    ((Accounts.prepare_receipts (Receipts.mk (r1 ++ r2 ++ r3 ++ r4))).2.2.1) r1
    hbpre (fun k => rfl) (by simpa using hlen_pre) hdist_pre heq1
    (fun inh h => rfl) hM1
  have hcol1 : (fun a =>
      if a ∈ (inherents.filter (fun i => i.is_pre_transactions)).map Inherent.target
      then t a else t1 a) = t := by
    funext a
    by_cases ha : a ∈ (inherents.filter (fun i => i.is_pre_transactions)).map Inherent.target
    · rw [if_pos ha]
    · rw [if_neg ha]
      refine Accounts.process_inherents_go_frame _ _ _ _ _ _ _ heq1 a ?_
      intro inh hinh hae
      exact ha (by rw [hae]; exact List.mem_map_of_mem Inherent.target hinh)
  rw [hcol1] at step1
  -- assemble the five reversal phases
  simp only [Accounts.revert, Accounts.process_inherents, Accounts.process_recipients,
    Accounts.process_senders, step5, step4, step3, step2, step1]

/-! ### Concrete account-variant instances for witnesses and
counterexamples -/

/-- A balance-transfer account variant: outgoing commits subtract (with a
funds check), incoming commits add; contract creation targets plain
basic accounts; all reverts are exact inverses. -/
def exOps : AccountOps where
  commit_incoming_transaction := fun a tx _ _ =>
    if tx.flags_contract_creation then
      (if a = Account.new_basic a.balance then
        Except.ok (Account.new_basic (a.balance + tx.value), none)
      else Except.error (AccountError.other 3))
    else Except.ok ({ a with balance := a.balance + tx.value }, none)
  revert_incoming_transaction := fun a tx _ _ _ =>
    if tx.value ≤ a.balance then
      (if tx.flags_contract_creation then Except.ok (Account.new_basic (a.balance - tx.value))
      else Except.ok { a with balance := a.balance - tx.value })
    else Except.error (AccountError.other 1)
  commit_outgoing_transaction := fun a tx _ _ =>
    if tx.value ≤ a.balance then Except.ok ({ a with balance := a.balance - tx.value }, none)
    else Except.error (AccountError.other 0)
  revert_outgoing_transaction := fun a tx _ _ _ =>
    Except.ok { a with balance := a.balance + tx.value }
  commit_inherent := fun a inh _ _ =>
    Except.ok ({ a with balance := a.balance + inh.data.length }, none)
  revert_inherent := fun a inh _ _ _ =>
    if inh.data.length ≤ a.balance then
      Except.ok { a with balance := a.balance - inh.data.length }
    else Except.error (AccountError.other 2)
  new_contract := fun ty bal tx _ _ =>
    Except.ok { type := ty, balance := bal, extra := tx.data }

theorem exOps_inv_out (bh ts : Nat) : ∀ a tx a' d?,
    exOps.commit_outgoing_transaction a tx bh ts = Except.ok (a', d?) →
    exOps.revert_outgoing_transaction a' tx bh ts d? = Except.ok a := by
  intro a tx a' d? h
  simp only [exOps] at h ⊢
  by_cases hv : tx.value ≤ a.balance
  · rw [if_pos hv] at h
    simp only [Prod.mk.injEq, Except.ok.injEq] at h
    obtain ⟨rfl, rfl⟩ := h
    simp [Nat.sub_add_cancel hv]
  · rw [if_neg hv] at h
    cases h

theorem exOps_ty_out (bh ts : Nat) : ∀ a tx a' d?,
    exOps.commit_outgoing_transaction a tx bh ts = Except.ok (a', d?) →
    a'.account_type = a.account_type := by
  intro a tx a' d? h
  simp only [exOps] at h
  by_cases hv : tx.value ≤ a.balance
  · rw [if_pos hv] at h
    simp only [Prod.mk.injEq, Except.ok.injEq] at h
    obtain ⟨rfl, rfl⟩ := h
    rfl
  · rw [if_neg hv] at h
    cases h

theorem exOps_inv_in (bh ts : Nat) : ∀ a tx a' d?,
    exOps.commit_incoming_transaction a tx bh ts = Except.ok (a', d?) →
    exOps.revert_incoming_transaction a' tx bh ts d? = Except.ok a := by
  intro a tx a' d? h
  simp only [exOps] at h ⊢
  cases hf : tx.flags_contract_creation with
  | true =>
      rw [hf] at h
      simp only [if_true] at h
      by_cases hb : a = Account.new_basic a.balance
      · rw [if_pos hb] at h
        simp only [Prod.mk.injEq, Except.ok.injEq] at h
        obtain ⟨rfl, rfl⟩ := h
        rw [if_pos (by simp [Account.new_basic])]
        simp only [if_true, Account.new_basic, Nat.add_sub_cancel, Except.ok.injEq]
        exact (hb.symm : _)
      · rw [if_neg hb] at h
        cases h
  | false =>
      rw [hf] at h
      simp only [Bool.false_eq_true, if_false] at h
      simp only [Prod.mk.injEq, Except.ok.injEq] at h
      obtain ⟨rfl, rfl⟩ := h
      rw [if_pos (by simp)]
      simp [Nat.add_sub_cancel]

theorem exOps_ty_in (bh ts : Nat) : ∀ a tx a' d?,
    exOps.commit_incoming_transaction a tx bh ts = Except.ok (a', d?) →
    a'.account_type = a.account_type := by
  intro a tx a' d? h
  simp only [exOps] at h
  cases hf : tx.flags_contract_creation with
  | true =>
      rw [hf] at h
      simp only [if_true] at h
      by_cases hb : a = Account.new_basic a.balance
      · rw [if_pos hb] at h
        simp only [Prod.mk.injEq, Except.ok.injEq] at h
        obtain ⟨rfl, rfl⟩ := h
        rw [hb]
        rfl
      · rw [if_neg hb] at h
        cases h
  | false =>
      rw [hf] at h
      simp only [Bool.false_eq_true, if_false] at h
      simp only [Prod.mk.injEq, Except.ok.injEq] at h
      obtain ⟨rfl, rfl⟩ := h
      rfl

theorem exOps_inv_inh (bh ts : Nat) : ∀ a inh a' d?,
    exOps.commit_inherent a inh bh ts = Except.ok (a', d?) →
    exOps.revert_inherent a' inh bh ts d? = Except.ok a := by
  intro a inh a' d? h
  simp only [exOps] at h ⊢
  simp only [Prod.mk.injEq, Except.ok.injEq] at h
  obtain ⟨rfl, rfl⟩ := h
  rw [if_pos (by simp)]
  simp [Nat.add_sub_cancel]

theorem exOps_nc (bh ts : Nat) : ∀ ty bal tx c,
    exOps.new_contract ty bal tx bh ts = Except.ok c →
    c.account_type = ty ∧ c.balance = bal := by
  intro ty bal tx c h
  simp only [exOps, Except.ok.injEq] at h
  subst h
  exact ⟨rfl, rfl⟩

theorem exOps_basic_in (bh ts : Nat) : ∀ a tx a' d?, tx.flags_contract_creation = true →
    exOps.commit_incoming_transaction a tx bh ts = Except.ok (a', d?) →
    a' = Account.new_basic a'.balance := by
  intro a tx a' d? hf h
  simp only [exOps, hf, if_true] at h
  by_cases hb : a = Account.new_basic a.balance
  · rw [if_pos hb] at h
    simp only [Prod.mk.injEq, Except.ok.injEq] at h
    obtain ⟨rfl, rfl⟩ := h
    rfl
  · rw [if_neg hb] at h
    cases h

/-- Genesis example state: address 0 holds balance 100, every other
address the default basic account with balance 0. -/
def exTrie : Trie := fun a =>
  if a = 0 then { type := AccountType.basic, balance := 100, extra := [] }
  else Account.new_basic 0

/-- A plain value transfer of 40 from address 0 to address 1. -/
def tx40 : Transaction :=
  { sender := 0, sender_type := AccountType.basic, recipient := 1,
    recipient_type := AccountType.basic, value := 40, contract_creation := false, data := [] }

/-- An account variant whose sender-side operations are exact inverses
individually but do not commute: payload `[0]` pushes a marker onto the
variant state, any other payload reverses it. -/
def cexOps : AccountOps where
  commit_outgoing_transaction := fun a tx _ _ =>
    if tx.data = [0] then Except.ok ({ a with extra := 0 :: a.extra }, none)
    else Except.ok ({ a with extra := a.extra.reverse }, none)
  revert_outgoing_transaction := fun a tx _ _ _ =>
    if tx.data = [0] then Except.ok { a with extra := a.extra.tail }
    else Except.ok { a with extra := a.extra.reverse }
  commit_incoming_transaction := fun a tx _ _ => Except.ok (a, none)
  revert_incoming_transaction := fun a tx _ _ _ => Except.ok a
  commit_inherent := fun a inh _ _ => Except.ok (a, none)
  revert_inherent := fun a inh _ _ _ => Except.ok a
  new_contract := fun ty bal tx _ _ =>
    Except.ok { type := ty, balance := bal, extra := tx.data }

def cexTrie : Trie := fun a =>
  if a = 0 then { type := AccountType.basic, balance := 0, extra := [5] }
  else Account.new_basic 0

def cexTx0 : Transaction :=
  { sender := 0, sender_type := AccountType.basic, recipient := 1,
    recipient_type := AccountType.basic, value := 0, contract_creation := false, data := [0] }

def cexTx1 : Transaction :=
  { sender := 0, sender_type := AccountType.basic, recipient := 1,
    recipient_type := AccountType.basic, value := 0, contract_creation := false, data := [1] }

/-- C1, counterexample.  An account variant whose every revert method is
the exact inverse of its commit method, together with a block whose two
transactions share a sender: `commit` succeeds (with no receipts),
`revert` with exactly the returned receipts also succeeds, yet the
resulting root hash differs from the pre-commit root hash — because
`revert` replays the sender list in forward rather than reverse order.
The claim as stated is therefore false. -/
theorem C1_counterexample :
    (∀ a tx a' d?, cexOps.commit_outgoing_transaction a tx 1 2 = Except.ok (a', d?) →
      cexOps.revert_outgoing_transaction a' tx 1 2 d? = Except.ok a) ∧
    (∀ a tx a' d?, cexOps.commit_incoming_transaction a tx 1 2 = Except.ok (a', d?) →
      cexOps.revert_incoming_transaction a' tx 1 2 d? = Except.ok a) ∧
    (∀ a inh a' d?, cexOps.commit_inherent a inh 1 2 = Except.ok (a', d?) →
      cexOps.revert_inherent a' inh 1 2 d? = Except.ok a) ∧
    (Accounts.commit cexOps cexTrie [cexTx0, cexTx1] [] 1 2).1 =
      Except.ok (Receipts.mk []) ∧
    (Accounts.revert cexOps (Accounts.commit cexOps cexTrie [cexTx0, cexTx1] [] 1 2).2
      [cexTx0, cexTx1] [] 1 2 (Receipts.mk [])).1 = Except.ok () ∧
    Accounts.get_root (Accounts.revert cexOps
      (Accounts.commit cexOps cexTrie [cexTx0, cexTx1] [] 1 2).2
      [cexTx0, cexTx1] [] 1 2 (Receipts.mk [])).2 ≠ Accounts.get_root cexTrie := by
  refine ⟨?_, ?_, ?_, rfl, rfl, ?_⟩
  · intro a tx a' d? h
    simp only [cexOps] at h ⊢
    by_cases hd : tx.data = [0]
    · rw [if_pos hd] at h
      simp only [Prod.mk.injEq, Except.ok.injEq] at h
      obtain ⟨rfl, rfl⟩ := h
      rw [if_pos hd]
      rfl
    · rw [if_neg hd] at h
      simp only [Prod.mk.injEq, Except.ok.injEq] at h
      obtain ⟨rfl, rfl⟩ := h
      rw [if_neg hd]
      simp
  · intro a tx a' d? h
    simp only [cexOps, Prod.mk.injEq, Except.ok.injEq] at h ⊢
    obtain ⟨rfl, rfl⟩ := h
    rfl
  · intro a inh a' d? h
    simp only [cexOps, Prod.mk.injEq, Except.ok.injEq] at h ⊢
    obtain ⟨rfl, rfl⟩ := h
    rfl
  · intro h
    exact absurd (congrFun h 0) (by decide)

/-- C1, amended.  Round-trip exactness holds as soon as (besides exact
type-preserving inverse capability methods) the contract constructor
honours the claimed type and balance, incoming commits of
CONTRACT_CREATION transactions produce plain basic accounts, each phase
touches pairwise-distinct addresses, and each phase processes at most
65536 operations (the `u16` receipt-index range): commit followed by
revert with the returned receipts restores the trie, hence its root
hash.  (Without the distinctness condition the claim fails, because
revert replays each phase in forward order — see the counterexample.) -/
theorem C1_theorem (ops : AccountOps) (t : Trie)
    (transactions : List Transaction) (inherents : List Inherent)
    (block_height timestamp : Nat) (receipts : Receipts) (t5 : Trie)
    (hInvOut : ∀ a tx a' d?,
      ops.commit_outgoing_transaction a tx block_height timestamp = Except.ok (a', d?) →
      ops.revert_outgoing_transaction a' tx block_height timestamp d? = Except.ok a)
    (hTyOut : ∀ a tx a' d?,
      ops.commit_outgoing_transaction a tx block_height timestamp = Except.ok (a', d?) →
      a'.account_type = a.account_type)
    (hInvIn : ∀ a tx a' d?,
      ops.commit_incoming_transaction a tx block_height timestamp = Except.ok (a', d?) →
      ops.revert_incoming_transaction a' tx block_height timestamp d? = Except.ok a)
    (hTyIn : ∀ a tx a' d?,
      ops.commit_incoming_transaction a tx block_height timestamp = Except.ok (a', d?) →
      a'.account_type = a.account_type)
    (hInvInh : ∀ a inh a' d?,
      ops.commit_inherent a inh block_height timestamp = Except.ok (a', d?) →
      ops.revert_inherent a' inh block_height timestamp d? = Except.ok a)
    (hNC : ∀ ty bal tx c,
      ops.new_contract ty bal tx block_height timestamp = Except.ok c →
      c.account_type = ty ∧ c.balance = bal)
    (hBasicIn : ∀ a tx a' d?, tx.flags_contract_creation = true →
      ops.commit_incoming_transaction a tx block_height timestamp = Except.ok (a', d?) →
      a' = Account.new_basic a'.balance)
    (hlen_tx : transactions.length ≤ 65536)
    (hlen_pre : (inherents.filter (fun i => i.is_pre_transactions)).length ≤ 65536)
    (hlen_post : (inherents.filter (fun i => ¬ i.is_pre_transactions)).length ≤ 65536)
    (hdist_s : (transactions.map Transaction.sender).Pairwise (fun a b => a ≠ b))
    (hdist_r : (transactions.map Transaction.recipient).Pairwise (fun a b => a ≠ b))
    (hdist_pre : ((inherents.filter (fun i => i.is_pre_transactions)).map
      Inherent.target).Pairwise (fun a b => a ≠ b))
    (hdist_post : ((inherents.filter (fun i => ¬ i.is_pre_transactions)).map
      Inherent.target).Pairwise (fun a b => a ≠ b))
    (hcommit : Accounts.commit ops t transactions inherents block_height timestamp =
      (Except.ok receipts, t5)) :
    Accounts.revert ops t5 transactions inherents block_height timestamp receipts =
      (Except.ok (), t) ∧
    Accounts.get_root (Accounts.revert ops t5 transactions inherents block_height
      timestamp receipts).2 = Accounts.get_root t := by
  have h := Accounts.commit_revert_roundtrip ops t transactions inherents block_height
    timestamp receipts t5 hInvOut hTyOut hInvIn hTyIn hInvInh hNC hBasicIn
    hlen_tx hlen_pre hlen_post hdist_s hdist_r hdist_pre hdist_post hcommit
  exact ⟨h, by rw [h]⟩

/-- Witness for the amended C1 at a concrete one-transfer block. -/
theorem C1_witness :
    Accounts.revert exOps (Accounts.commit exOps exTrie [tx40] [] 1 2).2 [tx40] [] 1 2
      (Receipts.mk []) = (Except.ok (), exTrie) ∧
    Accounts.get_root (Accounts.revert exOps (Accounts.commit exOps exTrie [tx40] [] 1 2).2
      [tx40] [] 1 2 (Receipts.mk [])).2 = Accounts.get_root exTrie :=
  C1_theorem exOps exTrie [tx40] [] 1 2 (Receipts.mk [])
    (Accounts.commit exOps exTrie [tx40] [] 1 2).2
    (exOps_inv_out 1 2) (exOps_ty_out 1 2) (exOps_inv_in 1 2) (exOps_ty_in 1 2)
    (exOps_inv_inh 1 2) (exOps_nc 1 2) (exOps_basic_in 1 2)
    (by decide) (by decide) (by decide)
    (by simp) (by simp) (by simp) (by simp)
    rfl

/-- C2.  `commit` is exactly the five-phase pipeline in the fixed order
pre-transaction inherents, senders, recipients, contract creation,
post-transaction inherents, with the receipts of the receipt-producing
phases concatenated in that order; `revert` is exactly the mirror
pipeline in reverse order, fed from the four per-phase maps that
`prepare_receipts` builds from the receipt bag. -/
theorem C2_theorem (ops : AccountOps) (t u : Trie) (transactions : List Transaction)
    (inherents : List Inherent) (block_height timestamp : Nat) (rs receipts2 : Receipts)
    (t' t'' : Trie)
    (hc : Accounts.commit ops t transactions inherents block_height timestamp =
      (Except.ok rs, t'))
    (hr : Accounts.revert ops u transactions inherents block_height timestamp receipts2 =
      (Except.ok (), t'')) :
    (∃ r1 t1 r2 t2 r3 t3 t4 r4,
      Accounts.process_inherents (commitInherentOp ops block_height timestamp) t
        (inherents.filter (fun i => i.is_pre_transactions)) ReceiptsMap.empty =
        (Except.ok r1, t1) ∧
      Accounts.process_senders (commitSenderOp ops timestamp) t1 transactions block_height
        timestamp ReceiptsMap.empty = (Except.ok r2, t2) ∧
      Accounts.process_recipients (commitRecipientOp ops timestamp) t2 transactions
        block_height timestamp ReceiptsMap.empty = (Except.ok r3, t3) ∧
      Accounts.create_contracts ops t3 transactions block_height timestamp =
        (Except.ok (), t4) ∧
      Accounts.process_inherents (commitInherentOp ops block_height timestamp) t4
        (inherents.filter (fun i => ¬ i.is_pre_transactions)) ReceiptsMap.empty =
        (Except.ok r4, t') ∧
      rs = Receipts.mk (r1 ++ r2 ++ r3 ++ r4)) ∧
    (∃ q1 u1 u2 q3 u3 q4 u4 q5,
      Accounts.process_inherents (revertInherentOp ops block_height timestamp) u
        (inherents.filter (fun i => ¬ i.is_pre_transactions))
        (Accounts.prepare_receipts receipts2).2.2.2 = (Except.ok q1, u1) ∧
      Accounts.revert_contracts ops u1 transactions block_height timestamp =
        (Except.ok (), u2) ∧
      Accounts.process_recipients (revertRecipientOp ops timestamp) u2 transactions
        block_height timestamp (Accounts.prepare_receipts receipts2).2.1 =
        (Except.ok q3, u3) ∧
      Accounts.process_senders (revertSenderOp ops timestamp) u3 transactions block_height
        timestamp (Accounts.prepare_receipts receipts2).1 = (Except.ok q4, u4) ∧
      Accounts.process_inherents (revertInherentOp ops block_height timestamp) u4
        (inherents.filter (fun i => i.is_pre_transactions))
        (Accounts.prepare_receipts receipts2).2.2.1 = (Except.ok q5, t'')) := by
  constructor
  · simp only [Accounts.commit] at hc
    split at hc
    · simp only [Prod.mk.injEq] at hc
      exact absurd hc.1 (by simp)
    rename_i r1 t1 heq1
    split at hc
    · simp only [Prod.mk.injEq] at hc
      exact absurd hc.1 (by simp)
    rename_i r2 t2 heq2
    split at hc
    · simp only [Prod.mk.injEq] at hc
      exact absurd hc.1 (by simp)
    rename_i r3 t3 heq3
    split at hc
    · simp only [Prod.mk.injEq] at hc
      exact absurd hc.1 (by simp)
    rename_i u0 t4 heq4
    split at hc
    · simp only [Prod.mk.injEq] at hc
      exact absurd hc.1 (by simp)
    rename_i r4 t5a heq5
    simp only [Prod.mk.injEq, Except.ok.injEq] at hc
    obtain ⟨hrs, ht5⟩ := hc
    subst ht5
    exact ⟨r1, t1, r2, t2, r3, t3, t4, r4, heq1, heq2, heq3, heq4, heq5, hrs.symm⟩
  · simp only [Accounts.revert] at hr
    split at hr
    · simp only [Prod.mk.injEq] at hr
      exact absurd hr.1 (by simp)
    rename_i q1 u1 heq1
    split at hr
    · simp only [Prod.mk.injEq] at hr
      exact absurd hr.1 (by simp)
    rename_i v0 u2 heq2
    split at hr
    · simp only [Prod.mk.injEq] at hr
      exact absurd hr.1 (by simp)
    rename_i q3 u3 heq3
    split at hr
    · simp only [Prod.mk.injEq] at hr
      exact absurd hr.1 (by simp)
    rename_i q4 u4 heq4
    split at hr
    · simp only [Prod.mk.injEq] at hr
      exact absurd hr.1 (by simp)
    rename_i q5 u5 heq5
    simp only [Prod.mk.injEq] at hr
    obtain ⟨-, ht⟩ := hr
    subst ht
    exact ⟨q1, u1, u2, q3, u3, q4, u4, q5, heq1, heq2, heq3, heq4, heq5⟩

/-- Witness for C2 at the concrete one-transfer block. -/
theorem C2_witness :
    ∃ r1 t1 r2 t2 r3 t3 t4 r4,
      Accounts.process_inherents (commitInherentOp exOps 1 2) exTrie
        (([] : List Inherent).filter (fun i => i.is_pre_transactions)) ReceiptsMap.empty =
        (Except.ok r1, t1) ∧
      Accounts.process_senders (commitSenderOp exOps 2) t1 [tx40] 1 2 ReceiptsMap.empty =
        (Except.ok r2, t2) ∧
      Accounts.process_recipients (commitRecipientOp exOps 2) t2 [tx40] 1 2
        ReceiptsMap.empty = (Except.ok r3, t3) ∧
      Accounts.create_contracts exOps t3 [tx40] 1 2 = (Except.ok (), t4) ∧
      Accounts.process_inherents (commitInherentOp exOps 1 2) t4
        (([] : List Inherent).filter (fun i => ¬ i.is_pre_transactions)) ReceiptsMap.empty =
        (Except.ok r4, (Accounts.commit exOps exTrie [tx40] [] 1 2).2) ∧
      Receipts.mk [] = Receipts.mk (r1 ++ r2 ++ r3 ++ r4) :=
  (C2_theorem exOps exTrie (Accounts.commit exOps exTrie [tx40] [] 1 2).2 [tx40] [] 1 2
    (Receipts.mk []) (Receipts.mk []) (Accounts.commit exOps exTrie [tx40] [] 1 2).2
    (Accounts.revert exOps (Accounts.commit exOps exTrie [tx40] [] 1 2).2 [tx40] [] 1 2
      (Receipts.mk [])).2 rfl rfl).1

/-- A sender/recipient operation that leaves the account unchanged and
yields no receipt. -/
def idTxOp : TxOp := fun a _ _ _ => Except.ok (a, none)

/-- An inherent operation that leaves the account unchanged and yields
no receipt. -/
def idInhOp : InhOp := fun a _ _ => Except.ok (a, none)

/-- A transfer claiming a vesting sender against the basic account at
address 0. -/
def txBad : Transaction :=
  { sender := 0, sender_type := AccountType.vesting, recipient := 1,
    recipient_type := AccountType.basic, value := 0, contract_creation := false, data := [] }

/-- C3.  Sender-side processing compares the stored account's type with
`transaction.sender_type` and fails with `TypeMismatch` (before invoking
the operation — for every operation — and without touching the trie)
when they differ; recipient-side processing performs the same check
against `transaction.recipient_type` unless the transaction carries
CONTRACT_CREATION, in which case processing is exactly the operation's
result regardless of the stored type (the shared loop serves both the
commit and revert directions); inherent targets are never type-checked:
their processing is exactly the operation's result. -/
theorem C3_theorem :
    (∀ (account_op : TxOp) (block_height : Nat) (t : Trie) (tx : Transaction)
      (rest : List Transaction) (i : Nat) (m : ReceiptsMap),
      (t tx.sender).account_type ≠ tx.sender_type →
      Accounts.process_senders_go account_op block_height t (tx :: rest) i m =
        (Except.error (AccountError.typeMismatch (t tx.sender).account_type tx.sender_type),
          t)) ∧
    (∀ (account_op : TxOp) (block_height : Nat) (t : Trie) (tx : Transaction)
      (rest : List Transaction) (i : Nat) (m : ReceiptsMap),
      tx.flags_contract_creation = false →
      (t tx.recipient).account_type ≠ tx.recipient_type →
      Accounts.process_recipients_go account_op block_height t (tx :: rest) i m =
        (Except.error (AccountError.typeMismatch (t tx.recipient).account_type
          tx.recipient_type), t)) ∧
    (∀ (account_op : TxOp) (block_height : Nat) (t : Trie) (tx : Transaction)
      (i : Nat) (m : ReceiptsMap),
      tx.flags_contract_creation = true →
      Accounts.process_recipients_go account_op block_height t [tx] i m =
        (match account_op (t tx.recipient) tx block_height (m (i % 65536)) with
         | Except.error e => (Except.error e, t)
         | Except.ok (a', some d) =>
            (Except.ok [Receipt.transaction (i % 65536) false d],
              t.put_batch tx.recipient a')
         | Except.ok (a', none) => (Except.ok [], t.put_batch tx.recipient a'))) ∧
    (∀ (account_op : InhOp) (t : Trie) (inh : Inherent) (i : Nat) (m : ReceiptsMap),
      Accounts.process_inherents_go account_op t [inh] i m =
        (match account_op (t inh.target) inh (m (i % 65536)) with
         | Except.error e => (Except.error e, t)
         | Except.ok (a', some d) =>
            (Except.ok [Receipt.inherent (i % 65536) inh.is_pre_transactions d],
              t.put_batch inh.target a')
         | Except.ok (a', none) => (Except.ok [], t.put_batch inh.target a'))) := by
  refine ⟨?_, ?_, ?_, ?_⟩
  · intro account_op block_height t tx rest i m hty
    simp only [Accounts.process_senders_go,
      Accounts.process_transaction_type_mismatch account_op t tx.sender tx.sender_type tx
        block_height ((ReceiptsMap.remove m (i % 65536)).1) hty]
  · intro account_op block_height t tx rest i m hflag hty
    have hflag' : tx.contract_creation = false := hflag
    simp only [Accounts.process_recipients_go, Transaction.flags_contract_creation, hflag',
      Bool.false_eq_true, if_false,
      Accounts.process_transaction_type_mismatch account_op t tx.recipient tx.recipient_type
        tx block_height ((ReceiptsMap.remove m (i % 65536)).1) hty]
  · intro account_op block_height t tx i m hflag
    have hflag' : tx.contract_creation = true := hflag
    rcases hop : account_op (t tx.recipient) tx block_height (m (i % 65536)) with e | ⟨a', d?⟩
    · simp [Accounts.process_recipients_go, Accounts.process_transaction,
        Accounts.apply_transaction_op, Trie.get, ReceiptsMap.remove,
        Transaction.flags_contract_creation, hflag', hop]
    · rcases d? with - | d <;>
        simp [Accounts.process_recipients_go, Accounts.process_transaction,
          Accounts.apply_transaction_op, Trie.get, ReceiptsMap.remove,
          Transaction.flags_contract_creation, hflag', hop,
          Accounts.process_senders_go, Accounts.process_inherents_go]
  · intro account_op t inh i m
    rcases hop : account_op (t inh.target) inh (m (i % 65536)) with e | ⟨a', d?⟩
    · simp [Accounts.process_inherents_go, Accounts.process_inherent, Trie.get,
        ReceiptsMap.remove, hop]
    · rcases d? with - | d <;>
        simp [Accounts.process_inherents_go, Accounts.process_inherent, Trie.get,
          ReceiptsMap.remove, hop]

/-- Witness for C3: the sender-side mismatch fires on a concrete claimed
vesting sender over a stored basic account, and a concrete flagged
transaction skips the recipient check even though the stored type
differs from the claimed one. -/
theorem C3_witness :
    Accounts.process_senders_go idTxOp 1 exTrie [txBad] 0 ReceiptsMap.empty =
      (Except.error (AccountError.typeMismatch AccountType.basic AccountType.vesting),
        exTrie) ∧
    Accounts.process_recipients_go idTxOp 1 exTrie
      [{ txBad with contract_creation := true, recipient_type := AccountType.vesting }] 0
      ReceiptsMap.empty =
      (Except.ok [], exTrie.put_batch 1 (exTrie 1)) := by
  constructor
  · exact C3_theorem.1 idTxOp 1 exTrie txBad [] 0 ReceiptsMap.empty (by decide)
  · have h := C3_theorem.2.2.1 idTxOp 1 exTrie
      { txBad with contract_creation := true, recipient_type := AccountType.vesting } 0
      ReceiptsMap.empty rfl
    exact h

/-- If the sender prefix commits successfully and the next transaction's
claimed sender type differs from the account stored at its sender
address, the whole sender phase stops there with `TypeMismatch`,
returning the trie exactly as mutated by the prefix. -/
theorem Accounts.process_senders_go_append_mismatch (account_op : TxOp) (block_height : Nat) :
    ∀ (txs1 : List Transaction) (tx : Transaction) (txs2 : List Transaction) (t : Trie)
      (i : Nat) (m : ReceiptsMap) (rs1 : List Receipt) (t2 : Trie),
    Accounts.process_senders_go account_op block_height t txs1 i m = (Except.ok rs1, t2) →
    (t2 tx.sender).account_type ≠ tx.sender_type →
    Accounts.process_senders_go account_op block_height t (txs1 ++ tx :: txs2) i m =
      (Except.error (AccountError.typeMismatch (t2 tx.sender).account_type tx.sender_type),
        t2) := by
  intro txs1
  induction txs1 with
  | nil =>
      intro tx txs2 t i m rs1 t2 hc hty
      simp only [Accounts.process_senders_go, Prod.mk.injEq, Except.ok.injEq] at hc
      obtain ⟨-, ht⟩ := hc
      subst ht
      simp only [List.nil_append, Accounts.process_senders_go,
        Accounts.process_transaction_type_mismatch account_op t tx.sender tx.sender_type tx
          block_height ((ReceiptsMap.remove m (i % 65536)).1) hty]
  | cons tx1 rest1 ih =>
      intro tx txs2 t i m rs1 t2 hc hty
      simp only [Accounts.process_senders_go] at hc
      split at hc
      · simp only [Prod.mk.injEq] at hc
        exact absurd hc.1 (by simp)
      · rename_i data? t1 heq
        split at hc
        · simp only [Prod.mk.injEq] at hc
          exact absurd hc.1 (by simp)
        · rename_i rs' t2' heq2
          have ht2 : t2' = t2 := by
            rcases data? with - | d <;> simp only [Prod.mk.injEq] at hc <;> exact hc.2
          subst ht2
          rw [List.cons_append]
          simp only [Accounts.process_senders_go, heq,
            ih tx txs2 t1 (i + 1) ((m.remove (i % 65536)).2) rs' t2' heq2 hty]

def txBad2 : Transaction :=
  { sender := 2, sender_type := AccountType.vesting, recipient := 3,
    recipient_type := AccountType.basic, value := 0, contract_creation := false, data := [] }

/-- C4, counterexample.  A block whose second transaction claims a
vesting sender over a stored basic account: `commit` returns
`TypeMismatch`, but the first transaction's sender (address 0) *was*
mutated within the caller's transaction (its balance already dropped
from 100 to 60), contradicting the claim that no account in the trie is
mutated by that commit call, including accounts touched before the
failing transaction. -/
theorem C4_counterexample :
    (Accounts.commit exOps exTrie [tx40, txBad2] [] 1 2).1 =
      Except.error (AccountError.typeMismatch AccountType.basic AccountType.vesting) ∧
    (Accounts.commit exOps exTrie [tx40, txBad2] [] 1 2).2 0 ≠ exTrie 0 := by
  exact ⟨rfl, by decide⟩

/-- C4, amended.  When the pre-transaction inherents and a prefix of the
sender phase succeed and the next transaction's claimed sender type
differs from the stored account's type, `commit` returns `TypeMismatch`
immediately: no later phase or transaction runs and the failing
transaction's own account is not written — but the writes of the earlier
phases and transactions remain in the caller's (to-be-aborted) write
transaction, whose state `commit` returns. -/
theorem C4_theorem (ops : AccountOps) (t : Trie) (transactions1 : List Transaction)
    (tx : Transaction) (transactions2 : List Transaction) (inherents : List Inherent)
    (block_height timestamp : Nat) (r1 : List Receipt) (t1 : Trie) (rs1 : List Receipt)
    (t2 : Trie)
    (hpre : Accounts.process_inherents (commitInherentOp ops block_height timestamp) t
      (inherents.filter (fun i => i.is_pre_transactions)) ReceiptsMap.empty =
      (Except.ok r1, t1))
    (hsend : Accounts.process_senders (commitSenderOp ops timestamp) t1 transactions1
      block_height timestamp ReceiptsMap.empty = (Except.ok rs1, t2))
    (hty : (t2 tx.sender).account_type ≠ tx.sender_type) :
    Accounts.commit ops t (transactions1 ++ tx :: transactions2) inherents block_height
      timestamp =
      (Except.error (AccountError.typeMismatch (t2 tx.sender).account_type tx.sender_type),
        t2) := by
  have hs : Accounts.process_senders (commitSenderOp ops timestamp) t1
      (transactions1 ++ tx :: transactions2) block_height timestamp ReceiptsMap.empty =
      (Except.error (AccountError.typeMismatch (t2 tx.sender).account_type tx.sender_type),
        t2) :=
    Accounts.process_senders_go_append_mismatch (commitSenderOp ops timestamp) block_height
      transactions1 tx transactions2 t1 0 ReceiptsMap.empty rs1 t2 hsend hty
  simp only [Accounts.commit, hpre, hs]

/-- Witness for the amended C4 at the concrete two-transaction block. -/
theorem C4_witness :
    Accounts.commit exOps exTrie ([tx40] ++ txBad2 :: []) [] 1 2 =
      (Except.error (AccountError.typeMismatch
        ((Accounts.process_senders (commitSenderOp exOps 2) exTrie [tx40] 1 2
          ReceiptsMap.empty).2 txBad2.sender).account_type txBad2.sender_type),
        (Accounts.process_senders (commitSenderOp exOps 2) exTrie [tx40] 1 2
          ReceiptsMap.empty).2) :=
  C4_theorem exOps exTrie [tx40] txBad2 [] [] 1 2 [] exTrie []
    (Accounts.process_senders (commitSenderOp exOps 2) exTrie [tx40] 1 2 ReceiptsMap.empty).2
    rfl rfl (by decide)

/-- C5.  `create_contract` replaces the account at the recipient key
with the freshly constructed contract account — built from the claimed
recipient type and the prior account's balance — and produces no receipt
(its result type carries none); on constructor failure nothing is
written.  `revert_contract` first checks the stored account's type
against the claimed recipient type, returns `TypeMismatch` (with the
trie untouched) on disagreement, and otherwise replaces the account with
a plain basic account carrying the same balance, discarding all
contract-specific state. -/
theorem C5_theorem :
    (∀ (ops : AccountOps) (t : Trie) (tx : Transaction) (block_height timestamp : Nat)
      (c : Account),
      ops.new_contract tx.recipient_type (t tx.recipient).balance tx block_height
        timestamp = Except.ok c →
      Accounts.create_contract ops t tx block_height timestamp =
        (Except.ok (), t.put_batch tx.recipient c)) ∧
    (∀ (ops : AccountOps) (t : Trie) (tx : Transaction) (block_height timestamp : Nat)
      (e : AccountError),
      ops.new_contract tx.recipient_type (t tx.recipient).balance tx block_height
        timestamp = Except.error e →
      Accounts.create_contract ops t tx block_height timestamp = (Except.error e, t)) ∧
    (∀ (ops : AccountOps) (t : Trie) (tx : Transaction) (block_height timestamp : Nat),
      (t tx.recipient).account_type ≠ tx.recipient_type →
      Accounts.revert_contract ops t tx block_height timestamp =
        (Except.error (AccountError.typeMismatch (t tx.recipient).account_type
          tx.recipient_type), t)) ∧
    (∀ (ops : AccountOps) (t : Trie) (tx : Transaction) (block_height timestamp : Nat),
      (t tx.recipient).account_type = tx.recipient_type →
      Accounts.revert_contract ops t tx block_height timestamp =
        (Except.ok (),
          t.put_batch tx.recipient (Account.new_basic (t tx.recipient).balance))) := by
  refine ⟨?_, ?_, ?_, ?_⟩
  · intro ops t tx block_height timestamp c h
    simp only [Accounts.create_contract, Trie.get, h]
  · intro ops t tx block_height timestamp e h
    simp only [Accounts.create_contract, Trie.get, h]
  · intro ops t tx block_height timestamp h
    simp only [Accounts.revert_contract, Trie.get, h, if_false]
  · intro ops t tx block_height timestamp h
    simp only [Accounts.revert_contract, Trie.get, h, if_true]

/-- A contract-creation transaction claiming a vesting recipient at
address 1. -/
def txCC : Transaction :=
  { sender := 0, sender_type := AccountType.basic, recipient := 1,
    recipient_type := AccountType.vesting, value := 40, contract_creation := true,
    data := [7] }

/-- State in which address 1 already holds a vesting contract with
balance 40 and some contract-specific state. -/
def cTrie : Trie := fun a =>
  if a = 1 then { type := AccountType.vesting, balance := 40, extra := [7] }
  else Account.new_basic 0

/-- Witness for C5: creating the concrete contract writes exactly the
constructed vesting account; reverting it writes back a plain basic
account with the same balance; reverting against a wrong stored type
fails with `TypeMismatch`. -/
theorem C5_witness :
    Accounts.create_contract exOps exTrie txCC 1 2 =
      (Except.ok (), exTrie.put_batch 1
        { type := AccountType.vesting, balance := 0, extra := [7] }) ∧
    Accounts.revert_contract exOps cTrie txCC 1 2 =
      (Except.ok (), cTrie.put_batch 1 (Account.new_basic 40)) ∧
    Accounts.revert_contract exOps exTrie txCC 1 2 =
      (Except.error (AccountError.typeMismatch AccountType.basic AccountType.vesting),
        exTrie) := by
  refine ⟨?_, ?_, ?_⟩
  · exact C5_theorem.1 exOps exTrie txCC 1 2
      { type := AccountType.vesting, balance := 0, extra := [7] } rfl
  · exact C5_theorem.2.2.2 exOps cTrie txCC 1 2 rfl
  · exact C5_theorem.2.2.1 exOps exTrie txCC 1 2 (by decide)

/-- C7.  `get_root_with` runs `commit` in a fresh write scope over the
durable state: on success it returns the root hash of the committed
scope and on failure the commit's error, and in both cases the durable
state it hands back is unchanged; consequently a second call on the
state left by a first call returns the identical hash. -/
theorem C7_theorem :
    (∀ (ops : AccountOps) (durable : Trie) (transactions : List Transaction)
      (inherents : List Inherent) (block_height timestamp : Nat) (rs : Receipts)
      (t' : Trie),
      Accounts.commit ops durable transactions inherents block_height timestamp =
        (Except.ok rs, t') →
      Accounts.get_root_with ops durable transactions inherents block_height timestamp =
        (Except.ok (Accounts.get_root t'), durable)) ∧
    (∀ (ops : AccountOps) (durable : Trie) (transactions : List Transaction)
      (inherents : List Inherent) (block_height timestamp : Nat) (e : AccountError)
      (t' : Trie),
      Accounts.commit ops durable transactions inherents block_height timestamp =
        (Except.error e, t') →
      Accounts.get_root_with ops durable transactions inherents block_height timestamp =
        (Except.error e, durable)) ∧
    (∀ (ops : AccountOps) (durable : Trie) (transactions : List Transaction)
      (inherents : List Inherent) (block_height timestamp : Nat),
      (Accounts.get_root_with ops durable transactions inherents block_height timestamp).2 =
        durable ∧
      (Accounts.get_root_with ops
        (Accounts.get_root_with ops durable transactions inherents block_height
          timestamp).2 transactions inherents block_height timestamp).1 =
        (Accounts.get_root_with ops durable transactions inherents block_height
          timestamp).1) := by
  refine ⟨?_, ?_, ?_⟩
  · intro ops durable transactions inherents block_height timestamp rs t' h
    simp only [Accounts.get_root_with, h]
  · intro ops durable transactions inherents block_height timestamp e t' h
    simp only [Accounts.get_root_with, h]
  · intro ops durable transactions inherents block_height timestamp
    have hdur : (Accounts.get_root_with ops durable transactions inherents block_height
        timestamp).2 = durable := by
      simp only [Accounts.get_root_with]
      rcases hres : Accounts.commit ops durable transactions inherents block_height
          timestamp with ⟨res, txn⟩
      rcases res with e | rs <;> rfl
    exact ⟨hdur, by rw [hdur]⟩

/-- Witness for C7 at the concrete one-transfer block. -/
theorem C7_witness :
    Accounts.get_root_with exOps exTrie [tx40] [] 1 2 =
      (Except.ok (Accounts.get_root (Accounts.commit exOps exTrie [tx40] [] 1 2).2),
        exTrie) ∧
    (Accounts.get_root_with exOps
      (Accounts.get_root_with exOps exTrie [tx40] [] 1 2).2 [tx40] [] 1 2).1 =
      (Accounts.get_root_with exOps exTrie [tx40] [] 1 2).1 := by
  constructor
  · exact C7_theorem.1 exOps exTrie [tx40] [] 1 2 (Receipts.mk [])
      (Accounts.commit exOps exTrie [tx40] [] 1 2).2 rfl
  · exact (C7_theorem.2.2 exOps exTrie [tx40] [] 1 2).2

/-- C8.  Error propagation and write-back discipline: a failing account
capability method makes `process_transaction`/`process_inherent` return
that error with the trie untouched (the write-back only happens after a
successful return); and a failing phase makes `commit`/`revert` return
that error immediately, with the transaction state exactly as the
failing phase left it — no later phase runs. -/
theorem C8_theorem :
    (∀ (account_op : TxOp) (t : Trie) (address : Address)
      (account_type : Option AccountType) (tx : Transaction) (block_height : Nat)
      (receipt : Option (List Nat)) (e : AccountError),
      (∀ ty, account_type = some ty → (t address).account_type = ty) →
      account_op (t address) tx block_height receipt = Except.error e →
      Accounts.process_transaction account_op t address account_type tx block_height
        receipt = (Except.error e, t)) ∧
    (∀ (account_op : InhOp) (t : Trie) (inh : Inherent) (receipt : Option (List Nat))
      (e : AccountError),
      account_op (t inh.target) inh receipt = Except.error e →
      Accounts.process_inherent account_op t inh receipt = (Except.error e, t)) ∧
    (∀ (ops : AccountOps) (t : Trie) (transactions : List Transaction)
      (inherents : List Inherent) (block_height timestamp : Nat) (e : AccountError)
      (t1 : Trie),
      Accounts.process_inherents (commitInherentOp ops block_height timestamp) t
        (inherents.filter (fun i => i.is_pre_transactions)) ReceiptsMap.empty =
        (Except.error e, t1) →
      Accounts.commit ops t transactions inherents block_height timestamp =
        (Except.error e, t1)) ∧
    (∀ (ops : AccountOps) (t : Trie) (transactions : List Transaction)
      (inherents : List Inherent) (block_height timestamp : Nat) (r1 : List Receipt)
      (t1 : Trie) (e : AccountError) (t2 : Trie),
      Accounts.process_inherents (commitInherentOp ops block_height timestamp) t
        (inherents.filter (fun i => i.is_pre_transactions)) ReceiptsMap.empty =
        (Except.ok r1, t1) →
      Accounts.process_senders (commitSenderOp ops timestamp) t1 transactions block_height
        timestamp ReceiptsMap.empty = (Except.error e, t2) →
      Accounts.commit ops t transactions inherents block_height timestamp =
        (Except.error e, t2)) ∧
    (∀ (ops : AccountOps) (t : Trie) (transactions : List Transaction)
      (inherents : List Inherent) (block_height timestamp : Nat) (r1 : List Receipt)
      (t1 : Trie) (r2 : List Receipt) (t2 : Trie) (e : AccountError) (t3 : Trie),
      Accounts.process_inherents (commitInherentOp ops block_height timestamp) t
        (inherents.filter (fun i => i.is_pre_transactions)) ReceiptsMap.empty =
        (Except.ok r1, t1) →
      Accounts.process_senders (commitSenderOp ops timestamp) t1 transactions block_height
        timestamp ReceiptsMap.empty = (Except.ok r2, t2) →
      Accounts.process_recipients (commitRecipientOp ops timestamp) t2 transactions
        block_height timestamp ReceiptsMap.empty = (Except.error e, t3) →
      Accounts.commit ops t transactions inherents block_height timestamp =
        (Except.error e, t3)) ∧
    (∀ (ops : AccountOps) (t : Trie) (transactions : List Transaction)
      (inherents : List Inherent) (block_height timestamp : Nat) (receipts : Receipts)
      (e : AccountError) (t1 : Trie),
      Accounts.process_inherents (revertInherentOp ops block_height timestamp) t
        (inherents.filter (fun i => ¬ i.is_pre_transactions))
        (Accounts.prepare_receipts receipts).2.2.2 = (Except.error e, t1) →
      Accounts.revert ops t transactions inherents block_height timestamp receipts =
        (Except.error e, t1)) ∧
    (∀ (ops : AccountOps) (t : Trie) (transactions : List Transaction)
      (inherents : List Inherent) (block_height timestamp : Nat) (receipts : Receipts)
      (q1 : List Receipt) (t1 : Trie) (e : AccountError) (t2 : Trie),
      Accounts.process_inherents (revertInherentOp ops block_height timestamp) t
        (inherents.filter (fun i => ¬ i.is_pre_transactions))
        (Accounts.prepare_receipts receipts).2.2.2 = (Except.ok q1, t1) →
      Accounts.revert_contracts ops t1 transactions block_height timestamp =
        (Except.error e, t2) →
      Accounts.revert ops t transactions inherents block_height timestamp receipts =
        (Except.error e, t2)) := by
  refine ⟨?_, ?_, ?_, ?_, ?_, ?_, ?_⟩
  · intro account_op t address account_type tx block_height receipt e hty hop
    exact Accounts.process_transaction_op_error account_op t address account_type tx
      block_height receipt e hty hop
  · intro account_op t inh receipt e hop
    exact Accounts.process_inherent_op_error account_op t inh receipt e hop
  · intro ops t transactions inherents block_height timestamp e t1 h1
    simp only [Accounts.commit, h1]
  · intro ops t transactions inherents block_height timestamp r1 t1 e t2 h1 h2
    simp only [Accounts.commit, h1, h2]
  · intro ops t transactions inherents block_height timestamp r1 t1 r2 t2 e t3 h1 h2 h3
    simp only [Accounts.commit, h1, h2, h3]
  · intro ops t transactions inherents block_height timestamp receipts e t1 h1
    simp only [Accounts.revert, h1]
  · intro ops t transactions inherents block_height timestamp receipts q1 t1 e t2 h1 h2
    simp only [Accounts.revert, h1, h2]

/-- Witness for C8: an insufficient-funds failure (value 200 over
balance 100) leaves the trie unchanged by `process_transaction`, and an
erroring sender phase short-circuits `commit` with that error. -/
theorem C8_witness :
    Accounts.process_transaction (commitSenderOp exOps 2) exTrie 0
      (some AccountType.basic) { tx40 with value := 200 } 1 none =
      (Except.error (AccountError.other 0), exTrie) ∧
    Accounts.commit exOps exTrie [{ tx40 with value := 200 }] [] 1 2 =
      (Except.error (AccountError.other 0),
        (Accounts.process_senders (commitSenderOp exOps 2) exTrie
          [{ tx40 with value := 200 }] 1 2 ReceiptsMap.empty).2) := by
  constructor
  · exact C8_theorem.1 (commitSenderOp exOps 2) exTrie 0 (some AccountType.basic)
      { tx40 with value := 200 } 1 none (AccountError.other 0)
      (by intro ty h; cases h; rfl) rfl
  · exact C8_theorem.2.2.2.1 exOps exTrie [{ tx40 with value := 200 }] [] 1 2 [] exTrie
      (AccountError.other 0)
      (Accounts.process_senders (commitSenderOp exOps 2) exTrie
        [{ tx40 with value := 200 }] 1 2 ReceiptsMap.empty).2 rfl rfl

/-- The index stored in a receipt. -/
def Receipt.rindex : Receipt → Nat
  | Receipt.transaction i _ _ => i
  | Receipt.inherent i _ _ => i

/-- Within one committed sender phase of at most 65536 transactions, all
emitted receipts carry pairwise-distinct indices — each transaction
contributes at most one sender receipt, keyed by its position. -/
theorem Accounts.process_senders_go_indices_pairwise (account_op : TxOp)
    (block_height : Nat) :
    ∀ (txs : List Transaction) (t : Trie) (i : Nat) (m : ReceiptsMap)
      (rs : List Receipt) (t' : Trie),
    i + txs.length ≤ 65536 →
    Accounts.process_senders_go account_op block_height t txs i m = (Except.ok rs, t') →
    (rs.map Receipt.rindex).Pairwise (fun a b => a ≠ b) := by
  intro txs
  induction txs with
  | nil =>
      intro t i m rs t' hbound h
      simp only [Accounts.process_senders_go, Prod.mk.injEq, Except.ok.injEq] at h
      rw [← h.1]
      simp
  | cons tx rest ih =>
      intro t i m rs t' hbound h
      simp only [Accounts.process_senders_go] at h
      split at h
      · simp only [Prod.mk.injEq] at h
        exact absurd h.1 (by simp)
      · rename_i data? t1 heq
        split at h
        · simp only [Prod.mk.injEq] at h
          exact absurd h.1 (by simp)
        · rename_i rs' t2 heq2
          have hbound' : (i + 1) + rest.length ≤ 65536 := by
            simp only [List.length_cons] at hbound
            omega
          have htail := ih t1 (i + 1) _ rs' t2 hbound' heq2
          rcases data? with - | d
          · simp only [Prod.mk.injEq, Except.ok.injEq] at h
            rw [← h.1]
            exact htail
          · simp only [Prod.mk.injEq, Except.ok.injEq] at h
            rw [← h.1]
            rw [List.map_cons]
            refine List.pairwise_cons.mpr ⟨?_, htail⟩
            intro b hb
            obtain ⟨r, hr, hrb⟩ := List.mem_map.mp hb
            obtain ⟨j, d', hj, hre⟩ :=
              Accounts.process_senders_go_receipts_shape _ _ rest _ _ _ _ _ heq2 r hr
            subst hre
            simp only [Receipt.rindex] at hrb
            subst hrb
            show (Receipt.transaction (i % 65536) true d).rindex ≠ (i + 1 + j) % 65536
            simp only [Receipt.rindex]
            simp only [List.length_cons] at hbound
            rw [Nat.mod_eq_of_lt (by omega), Nat.mod_eq_of_lt (by omega)]
            omega

/-- Account variant for the receipt-independence scenario: an outgoing
commit emits a balance-snapshot receipt only when the transaction has a
nonempty payload; its revert restores from the snapshot when a receipt
is present and adds the value back otherwise. -/
def rOps : AccountOps :=
  { exOps with
    commit_outgoing_transaction := fun a tx _ _ =>
      if tx.value ≤ a.balance then
        Except.ok ({ a with balance := a.balance - tx.value },
          if tx.data = [] then none else some [a.balance])
      else Except.error (AccountError.other 0)
    revert_outgoing_transaction := fun a tx _ _ r =>
      match r with
      | some [b] => Except.ok { a with balance := b }
      | some _ => Except.error (AccountError.other 4)
      | none => Except.ok { a with balance := a.balance + tx.value } }

def rTrie : Trie := fun a =>
  if a = 0 then Account.new_basic 100
  else if a = 1 then Account.new_basic 50
  else Account.new_basic 0

def txA : Transaction :=
  { sender := 0, sender_type := AccountType.basic, recipient := 2,
    recipient_type := AccountType.basic, value := 10, contract_creation := false,
    data := [] }

def txB : Transaction :=
  { sender := 1, sender_type := AccountType.basic, recipient := 3,
    recipient_type := AccountType.basic, value := 20, contract_creation := false,
    data := [9] }

/-- C6.  A receipt is emitted for an operation iff the account's commit
method returns `Some(data)` (characterized exactly for a type-checked
sender step); every sender-phase receipt is tagged `sender = true` and
keyed by its transaction's truncated 0-based position, every
recipient-phase receipt is tagged `sender = false` likewise, and within
a ≤65536-transaction phase the emitted indices are pairwise distinct, so
each transaction contributes at most one receipt per role.  Reverting
with exactly the receipts commit produced succeeds even when some
operations produced none: in the concrete two-transfer block only
transaction #1 produces a receipt, and revert with that single receipt
restores all four touched accounts. -/
theorem C6_theorem :
    (∀ (account_op : TxOp) (block_height : Nat) (t : Trie) (tx : Transaction)
      (i : Nat) (m : ReceiptsMap),
      (t tx.sender).account_type = tx.sender_type →
      Accounts.process_senders_go account_op block_height t [tx] i m =
        (match account_op (t tx.sender) tx block_height (m (i % 65536)) with
         | Except.error e => (Except.error e, t)
         | Except.ok (a', some d) =>
            (Except.ok [Receipt.transaction (i % 65536) true d], t.put_batch tx.sender a')
         | Except.ok (a', none) => (Except.ok [], t.put_batch tx.sender a'))) ∧
    (∀ (account_op : TxOp) (block_height : Nat) (txs : List Transaction) (t : Trie)
      (i : Nat) (m : ReceiptsMap) (rs : List Receipt) (t' : Trie),
      Accounts.process_senders_go account_op block_height t txs i m = (Except.ok rs, t') →
      ∀ r ∈ rs, ∃ j d, j < txs.length ∧ r = Receipt.transaction ((i + j) % 65536) true d) ∧
    (∀ (account_op : TxOp) (block_height : Nat) (txs : List Transaction) (t : Trie)
      (i : Nat) (m : ReceiptsMap) (rs : List Receipt) (t' : Trie),
      Accounts.process_recipients_go account_op block_height t txs i m =
        (Except.ok rs, t') →
      ∀ r ∈ rs, ∃ j d, j < txs.length ∧ r = Receipt.transaction ((i + j) % 65536) false d) ∧
    (∀ (account_op : TxOp) (block_height : Nat) (txs : List Transaction) (t : Trie)
      (i : Nat) (m : ReceiptsMap) (rs : List Receipt) (t' : Trie),
      i + txs.length ≤ 65536 →
      Accounts.process_senders_go account_op block_height t txs i m = (Except.ok rs, t') →
      (rs.map Receipt.rindex).Pairwise (fun a b => a ≠ b)) ∧
    ((Accounts.commit rOps rTrie [txA, txB] [] 1 2).1 =
      Except.ok (Receipts.mk [Receipt.transaction 1 true [50]]) ∧
     (Accounts.revert rOps (Accounts.commit rOps rTrie [txA, txB] [] 1 2).2 [txA, txB] []
       1 2 (Receipts.mk [Receipt.transaction 1 true [50]])).1 = Except.ok () ∧
     (Accounts.revert rOps (Accounts.commit rOps rTrie [txA, txB] [] 1 2).2 [txA, txB] []
       1 2 (Receipts.mk [Receipt.transaction 1 true [50]])).2 0 = rTrie 0 ∧
     (Accounts.revert rOps (Accounts.commit rOps rTrie [txA, txB] [] 1 2).2 [txA, txB] []
       1 2 (Receipts.mk [Receipt.transaction 1 true [50]])).2 1 = rTrie 1 ∧
     (Accounts.revert rOps (Accounts.commit rOps rTrie [txA, txB] [] 1 2).2 [txA, txB] []
       1 2 (Receipts.mk [Receipt.transaction 1 true [50]])).2 2 = rTrie 2 ∧
     (Accounts.revert rOps (Accounts.commit rOps rTrie [txA, txB] [] 1 2).2 [txA, txB] []
       1 2 (Receipts.mk [Receipt.transaction 1 true [50]])).2 3 = rTrie 3) := by
  refine ⟨?_, ?_, ?_, ?_, rfl, rfl, rfl, rfl, rfl, rfl⟩
  · intro account_op block_height t tx i m hty
    rcases hop : account_op (t tx.sender) tx block_height (m (i % 65536)) with e | ⟨a', d?⟩
    · simp [Accounts.process_senders_go, Accounts.process_transaction,
        Accounts.apply_transaction_op, Trie.get, ReceiptsMap.remove, hty, hop]
    · rcases d? with - | d <;>
        simp [Accounts.process_senders_go, Accounts.process_transaction,
          Accounts.apply_transaction_op, Trie.get, ReceiptsMap.remove, hty, hop]
  · intro account_op block_height txs t i m rs t' h
    exact Accounts.process_senders_go_receipts_shape account_op block_height txs t i m rs
      t' h
  · intro account_op block_height txs t i m rs t' h
    exact Accounts.process_recipients_go_receipts_shape account_op block_height txs t i m
      rs t' h
  · intro account_op block_height txs t i m rs t' hbound h
    exact Accounts.process_senders_go_indices_pairwise account_op block_height txs t i m
      rs t' hbound h

/-- Witness for C6: the sender-step characterization evaluated on the
receipt-producing transaction of the concrete scenario. -/
theorem C6_witness :
    Accounts.process_senders_go (commitSenderOp rOps 2) 1 rTrie [txB] 1
      ReceiptsMap.empty =
      (Except.ok [Receipt.transaction 1 true [50]],
        rTrie.put_batch 1 (Account.new_basic 30)) := by
  have h := C6_theorem.1 (commitSenderOp rOps 2) 1 rTrie txB 1 ReceiptsMap.empty
    (by decide)
  rw [h]
  rfl

/-- The receipt list the sender phase produces when every operation
emits its transaction's payload as receipt data: one receipt per
position, keyed by the truncated position. -/
def collectData : Nat → List Transaction → List Receipt
  | _, [] => []
  | i, tx :: rest => Receipt.transaction (i % 65536) true tx.data :: collectData (i + 1) rest

/-- An operation that always emits the transaction payload as receipt
data and leaves the account unchanged. -/
def snapOp : TxOp := fun a tx _ _ => Except.ok (a, some tx.data)

theorem collectData_append : ∀ (l1 l2 : List Transaction) (i : Nat),
    collectData i (l1 ++ l2) = collectData i l1 ++ collectData (i + l1.length) l2 := by
  intro l1
  induction l1 with
  | nil => intro l2 i; simp [collectData]
  | cons tx rest ih =>
      intro l2 i
      rw [List.cons_append]
      show Receipt.transaction (i % 65536) true tx.data :: collectData (i + 1) (rest ++ l2)
        = collectData i (tx :: rest) ++ collectData (i + (tx :: rest).length) l2
      rw [ih l2 (i + 1)]
      show _ = (Receipt.transaction (i % 65536) true tx.data :: collectData (i + 1) rest)
        ++ collectData (i + (tx :: rest).length) l2
      rw [List.cons_append]
      have harith : i + 1 + rest.length = i + (tx :: rest).length := by
        simp only [List.length_cons]
        omega
      rw [harith]

theorem collectData_mem : ∀ (txs : List Transaction) (i j : Nat) (h : j < txs.length),
    Receipt.transaction ((i + j) % 65536) true (txs[j].data) ∈ collectData i txs := by
  intro txs
  induction txs with
  | nil => intro i j h; cases h
  | cons tx rest ih =>
      intro i j h
      cases j with
      | zero =>
          simp only [List.getElem_cons_zero, Nat.add_zero, collectData]
          exact List.mem_cons_self _ _
      | succ j' =>
          simp only [List.getElem_cons_succ, collectData]
          have hj' : j' < rest.length := by simpa using Nat.lt_of_succ_lt_succ h
          have := ih (i + 1) j' hj'
          have harith : i + 1 + j' = i + (j' + 1) := by omega
          rw [harith] at this
          exact List.mem_cons_of_mem _ this

/-- Running the sender phase with `snapOp` over an all-basic trie and
all-basic claimed sender types produces exactly `collectData`. -/
theorem Accounts.process_senders_go_snapOp (block_height : Nat) :
    ∀ (txs : List Transaction) (t : Trie) (i : Nat) (m : ReceiptsMap),
    (∀ tx ∈ txs, tx.sender_type = AccountType.basic) →
    (∀ a, (t a).account_type = AccountType.basic) →
    ∃ t', Accounts.process_senders_go snapOp block_height t txs i m =
      (Except.ok (collectData i txs), t') ∧
      (∀ a, (t' a).account_type = AccountType.basic) := by
  intro txs
  induction txs with
  | nil =>
      intro t i m hst ht
      exact ⟨t, rfl, ht⟩
  | cons tx rest ih =>
      intro t i m hst ht
      have hPT : Accounts.process_transaction snapOp t tx.sender (some tx.sender_type) tx
          block_height ((m.remove (i % 65536)).1) =
          (Except.ok (some tx.data), t.put_batch tx.sender (t tx.sender)) := by
        apply Accounts.process_transaction_eq_ok
        · intro ty hty
          cases hty
          rw [ht tx.sender, hst tx (List.mem_cons_self tx rest)]
        · rfl
      have ht1 : ∀ a, ((t.put_batch tx.sender (t tx.sender)) a).account_type =
          AccountType.basic := by
        intro a
        by_cases ha : a = tx.sender
        · subst ha; rw [Trie.put_batch_same]; exact ht tx.sender
        · rw [Trie.put_batch_ne _ _ _ _ ha]; exact ht a
      obtain ⟨t', hrec, ht'⟩ := ih (t.put_batch tx.sender (t tx.sender)) (i + 1)
        ((m.remove (i % 65536)).2) (fun tx' h' => hst tx' (List.mem_cons_of_mem tx h')) ht1
      refine ⟨t', ?_, ht'⟩
      show (match Accounts.process_transaction snapOp t tx.sender (some tx.sender_type) tx
          block_height ((m.remove (i % 65536)).1) with
        | (Except.error e, t') => (Except.error e, t')
        | (Except.ok data?, t') =>
            match Accounts.process_senders_go snapOp block_height t' rest (i + 1)
                ((m.remove (i % 65536)).2) with
            | (Except.error e, t'') => (Except.error e, t'')
            | (Except.ok new_receipts, t'') =>
                match data? with
                | some data =>
                    (Except.ok (Receipt.transaction (i % 65536) true data :: new_receipts),
                      t'')
                | none => (Except.ok new_receipts, t'')) = _
      simp only [hPT, hrec, collectData]

/-- A family of distinct-payload transactions: transaction `j` carries
payload `[j]`. -/
def txNum (j : Nat) : Transaction :=
  { sender := 0, sender_type := AccountType.basic, recipient := 1,
    recipient_type := AccountType.basic, value := 0, contract_creation := false,
    data := [j] }

def txList (n : Nat) : List Transaction := (List.range n).map txNum

theorem txList_length : ∀ n, (txList n).length = n := by
  intro n
  simp [txList]

theorem collectData_txList_mem : ∀ (n i j : Nat), j < n →
    Receipt.transaction ((i + j) % 65536) true [j] ∈ collectData i (txList n) := by
  intro n
  induction n with
  | zero => intro i j h; cases h
  | succ n ih =>
      intro i j h
      have hsplit : txList (n + 1) = txList n ++ [txNum n] := by
        simp only [txList, List.range_succ, List.map_append, List.map_cons, List.map_nil]
      rw [hsplit, collectData_append, txList_length]
      rcases Nat.lt_or_ge j n with hj | hj
      · exact List.mem_append_left _ (ih i j hj)
      · have hjn : j = n := by omega
        subst hjn
        exact List.mem_append_right _ (List.mem_cons_self _ _)

/-- C9.  Receipt indices are stored truncated: every sender-phase
receipt carries index `(i + position) % 65536` (`as u16`), and in the
65537-transaction block of pairwise-distinct payloads processed with an
always-emitting operation, positions 0 and 65536 both produce receipts
with index 0; `prepare_receipts` then keeps only the later one, so the
per-phase map used by revert answers `[65536]` at index 0 and can no
longer see position 0's receipt `[0]`. -/
theorem C9_theorem :
    (∀ (account_op : TxOp) (block_height : Nat) (txs : List Transaction) (t : Trie)
      (i : Nat) (m : ReceiptsMap) (rs : List Receipt) (t' : Trie),
      Accounts.process_senders_go account_op block_height t txs i m = (Except.ok rs, t') →
      ∀ r ∈ rs, ∃ j d, j < txs.length ∧ r = Receipt.transaction ((i + j) % 65536) true d) ∧
    (∀ (block_height : Nat) (t : Trie) (m : ReceiptsMap),
      (∀ a, (t a).account_type = AccountType.basic) →
      ∃ t', Accounts.process_senders_go snapOp block_height t (txList 65537) 0 m =
        (Except.ok (collectData 0 (txList 65537)), t')) ∧
    Receipt.transaction 0 true [0] ∈ collectData 0 (txList 65537) ∧
    Receipt.transaction 0 true [65536] ∈ collectData 0 (txList 65537) ∧
    (Accounts.prepare_receipts (Receipts.mk (collectData 0 (txList 65537)))).1 0 =
      some [65536] := by
  refine ⟨?_, ?_, ?_, ?_, ?_⟩
  · intro account_op block_height txs t i m rs t' h
    exact Accounts.process_senders_go_receipts_shape account_op block_height txs t i m rs
      t' h
  · intro block_height t m ht
    obtain ⟨t', h, -⟩ := Accounts.process_senders_go_snapOp block_height (txList 65537) t
      0 m (by intro tx htx; obtain ⟨j, -, rfl⟩ := List.mem_map.mp htx; rfl) ht
    exact ⟨t', h⟩
  · exact collectData_txList_mem 65537 0 0 (by omega)
  · exact collectData_txList_mem 65537 0 65536 (by omega)
  · rw [(Accounts.prepare_receipts_spec (collectData 0 (txList 65537)) 0).1]
    have hsplit : txList 65537 = txList 65536 ++ [txNum 65536] := by
      show (List.range 65537).map txNum = (List.range 65536).map txNum ++ [txNum 65536]
      rw [show (65537 : Nat) = 65536 + 1 from rfl, List.range_succ, List.map_append]
      rfl
    rw [hsplit, collectData_append]
    have hlen : (txList 65536).length = 65536 := by simp [txList]
    rw [hlen, lastTxData_append]
    have hsingle : lastTxData true 0 (collectData (0 + 65536) [txNum 65536]) =
        some [65536] := by decide
    rw [hsingle]

/-- Witness for C9: the always-emitting sender phase over the
65537-transaction block from an all-basic trie. -/
theorem C9_witness :
    ∃ t', Accounts.process_senders_go snapOp 1 (fun _ => Account.new_basic 0)
      (txList 65537) 0 ReceiptsMap.empty =
      (Except.ok (collectData 0 (txList 65537)), t') :=
  C9_theorem.2.1 1 (fun _ => Account.new_basic 0) ReceiptsMap.empty (fun a => rfl)

/-! ### Receipt-map congruence: phases only consult the keys of their
own positions -/

theorem Accounts.process_senders_go_map_congr (account_op : TxOp) (block_height : Nat) :
    ∀ (txs : List Transaction) (t : Trie) (i : Nat) (M M' : ReceiptsMap),
    (∀ j, j < txs.length → M ((i + j) % 65536) = M' ((i + j) % 65536)) →
    Accounts.process_senders_go account_op block_height t txs i M =
      Accounts.process_senders_go account_op block_height t txs i M' := by
  intro txs
  induction txs with
  | nil => intro t i M M' h; rfl
  | cons tx rest ih =>
      intro t i M M' h
      have h0 : (M.remove (i % 65536)).1 = (M'.remove (i % 65536)).1 := by
        show M (i % 65536) = M' (i % 65536)
        simpa using h 0 (by simp)
      have hagree : ∀ j, j < rest.length →
          (M.remove (i % 65536)).2 ((i + 1 + j) % 65536) =
          (M'.remove (i % 65536)).2 ((i + 1 + j) % 65536) := by
        intro j hj
        by_cases hk : (i + 1 + j) % 65536 = i % 65536
        · rw [hk, ReceiptsMap.remove_snd_same, ReceiptsMap.remove_snd_same]
        · rw [ReceiptsMap.remove_snd_ne _ _ _ hk, ReceiptsMap.remove_snd_ne _ _ _ hk]
          have hx := h (j + 1) (by simp only [List.length_cons]; omega)
          have harith : i + (j + 1) = i + 1 + j := by omega
          rw [harith] at hx
          exact hx
      have hrec : ∀ t0, Accounts.process_senders_go account_op block_height t0 rest (i + 1)
          ((M.remove (i % 65536)).2) =
          Accounts.process_senders_go account_op block_height t0 rest (i + 1)
          ((M'.remove (i % 65536)).2) := by
        intro t0
        exact ih t0 (i + 1) _ _ hagree
      simp only [Accounts.process_senders_go, h0, hrec]

theorem Accounts.process_recipients_go_map_congr (account_op : TxOp) (block_height : Nat) :
    ∀ (txs : List Transaction) (t : Trie) (i : Nat) (M M' : ReceiptsMap),
    (∀ j, j < txs.length → M ((i + j) % 65536) = M' ((i + j) % 65536)) →
    Accounts.process_recipients_go account_op block_height t txs i M =
      Accounts.process_recipients_go account_op block_height t txs i M' := by
  intro txs
  induction txs with
  | nil => intro t i M M' h; rfl
  | cons tx rest ih =>
      intro t i M M' h
      have h0 : (M.remove (i % 65536)).1 = (M'.remove (i % 65536)).1 := by
        show M (i % 65536) = M' (i % 65536)
        simpa using h 0 (by simp)
      have hagree : ∀ j, j < rest.length →
          (M.remove (i % 65536)).2 ((i + 1 + j) % 65536) =
          (M'.remove (i % 65536)).2 ((i + 1 + j) % 65536) := by
        intro j hj
        by_cases hk : (i + 1 + j) % 65536 = i % 65536
        · rw [hk, ReceiptsMap.remove_snd_same, ReceiptsMap.remove_snd_same]
        · rw [ReceiptsMap.remove_snd_ne _ _ _ hk, ReceiptsMap.remove_snd_ne _ _ _ hk]
          have hx := h (j + 1) (by simp only [List.length_cons]; omega)
          have harith : i + (j + 1) = i + 1 + j := by omega
          rw [harith] at hx
          exact hx
      have hrec : ∀ t0, Accounts.process_recipients_go account_op block_height t0 rest
          (i + 1) ((M.remove (i % 65536)).2) =
          Accounts.process_recipients_go account_op block_height t0 rest (i + 1)
          ((M'.remove (i % 65536)).2) := by
        intro t0
        exact ih t0 (i + 1) _ _ hagree
      simp only [Accounts.process_recipients_go, h0, hrec]

theorem Accounts.process_inherents_go_map_congr (account_op : InhOp) :
    ∀ (inhs : List Inherent) (t : Trie) (i : Nat) (M M' : ReceiptsMap),
    (∀ j, j < inhs.length → M ((i + j) % 65536) = M' ((i + j) % 65536)) →
    Accounts.process_inherents_go account_op t inhs i M =
      Accounts.process_inherents_go account_op t inhs i M' := by
  intro inhs
  induction inhs with
  | nil => intro t i M M' h; rfl
  | cons inh rest ih =>
      intro t i M M' h
      have h0 : (M.remove (i % 65536)).1 = (M'.remove (i % 65536)).1 := by
        show M (i % 65536) = M' (i % 65536)
        simpa using h 0 (by simp)
      have hagree : ∀ j, j < rest.length →
          (M.remove (i % 65536)).2 ((i + 1 + j) % 65536) =
          (M'.remove (i % 65536)).2 ((i + 1 + j) % 65536) := by
        intro j hj
        by_cases hk : (i + 1 + j) % 65536 = i % 65536
        · rw [hk, ReceiptsMap.remove_snd_same, ReceiptsMap.remove_snd_same]
        · rw [ReceiptsMap.remove_snd_ne _ _ _ hk, ReceiptsMap.remove_snd_ne _ _ _ hk]
          have hx := h (j + 1) (by simp only [List.length_cons]; omega)
          have harith : i + (j + 1) = i + 1 + j := by omega
          rw [harith] at hx
          exact hx
      have hrec : ∀ t0, Accounts.process_inherents_go account_op t0 rest (i + 1)
          ((M.remove (i % 65536)).2) =
          Accounts.process_inherents_go account_op t0 rest (i + 1)
          ((M'.remove (i % 65536)).2) := by
        intro t0
        exact ih t0 (i + 1) _ _ hagree
      simp only [Accounts.process_inherents_go, h0, hrec]

/-- C10.  Surplus receipts are silently tolerated: appending a
sender-transaction receipt whose index matches no transaction position
leaves `revert`'s result entirely unchanged (the entry is simply never
consumed); and when several receipts share a phase, role and index, the
map `prepare_receipts` builds answers with the data of the *last* such
receipt in the bag — a later insert overwrites, with no error — as the
lookup characterization and a concrete duplicate pair show. -/
theorem C10_theorem :
    (∀ (ops : AccountOps) (t : Trie) (transactions : List Transaction)
      (inherents : List Inherent) (block_height timestamp : Nat) (L : List Receipt)
      (k0 : Nat) (d : List Nat),
      (∀ j, j < transactions.length → k0 ≠ j % 65536) →
      Accounts.revert ops t transactions inherents block_height timestamp
        (Receipts.mk (L ++ [Receipt.transaction k0 true d])) =
      Accounts.revert ops t transactions inherents block_height timestamp
        (Receipts.mk L)) ∧
    (∀ (L : List Receipt) (k : Nat),
      (Accounts.prepare_receipts (Receipts.mk L)).1 k = lastTxData true k L) ∧
    ((Accounts.prepare_receipts (Receipts.mk
      [Receipt.transaction 5 true [1], Receipt.transaction 5 true [2]])).1 5 =
      some [2]) := by
  refine ⟨?_, ?_, ?_⟩
  · intro ops t transactions inherents block_height timestamp L k0 d hk0
    have hs : ∀ k, k ≠ k0 →
        (Accounts.prepare_receipts (Receipts.mk
          (L ++ [Receipt.transaction k0 true d]))).1 k =
        (Accounts.prepare_receipts (Receipts.mk L)).1 k := by
      intro k hk
      rw [(Accounts.prepare_receipts_spec _ k).1, (Accounts.prepare_receipts_spec L k).1,
        lastTxData_append]
      have hsingle : lastTxData true k [Receipt.transaction k0 true d] = none := by
        show lastTxDataAcc true k (txStep true k none (Receipt.transaction k0 true d)) [] = _
        simp [txStep, lastTxDataAcc, Ne.symm hk]
      rw [hsingle]
    have hrc : ∀ k,
        (Accounts.prepare_receipts (Receipts.mk
          (L ++ [Receipt.transaction k0 true d]))).2.1 k =
        (Accounts.prepare_receipts (Receipts.mk L)).2.1 k := by
      intro k
      rw [(Accounts.prepare_receipts_spec _ k).2.1,
        (Accounts.prepare_receipts_spec L k).2.1, lastTxData_append]
      have hsingle : lastTxData false k [Receipt.transaction k0 true d] = none := by
        show lastTxDataAcc false k (txStep false k none (Receipt.transaction k0 true d)) []
          = _
        simp [txStep, lastTxDataAcc]
      rw [hsingle]
    have hpre : ∀ k,
        (Accounts.prepare_receipts (Receipts.mk
          (L ++ [Receipt.transaction k0 true d]))).2.2.1 k =
        (Accounts.prepare_receipts (Receipts.mk L)).2.2.1 k := by
      intro k
      rw [(Accounts.prepare_receipts_spec _ k).2.2.1,
        (Accounts.prepare_receipts_spec L k).2.2.1, lastInhData_append]
      have hsingle : lastInhData true k [Receipt.transaction k0 true d] = none := rfl
      rw [hsingle]
    have hpost : ∀ k,
        (Accounts.prepare_receipts (Receipts.mk
          (L ++ [Receipt.transaction k0 true d]))).2.2.2 k =
        (Accounts.prepare_receipts (Receipts.mk L)).2.2.2 k := by
      intro k
      rw [(Accounts.prepare_receipts_spec _ k).2.2.2,
        (Accounts.prepare_receipts_spec L k).2.2.2, lastInhData_append]
      have hsingle : lastInhData false k [Receipt.transaction k0 true d] = none := rfl
      rw [hsingle]
    have e_post : ∀ t0, Accounts.process_inherents_go
        (revertInherentOp ops block_height timestamp) t0
        (inherents.filter (fun i => ¬ i.is_pre_transactions)) 0
        (Accounts.prepare_receipts (Receipts.mk
          (L ++ [Receipt.transaction k0 true d]))).2.2.2 =
        Accounts.process_inherents_go (revertInherentOp ops block_height timestamp) t0
        (inherents.filter (fun i => ¬ i.is_pre_transactions)) 0
        (Accounts.prepare_receipts (Receipts.mk L)).2.2.2 := by
      intro t0
      exact Accounts.process_inherents_go_map_congr _ _ t0 0 _ _
        (fun j hj => hpost ((0 + j) % 65536))
    have e_pre : ∀ t0, Accounts.process_inherents_go
        (revertInherentOp ops block_height timestamp) t0
        (inherents.filter (fun i => i.is_pre_transactions)) 0
        (Accounts.prepare_receipts (Receipts.mk
          (L ++ [Receipt.transaction k0 true d]))).2.2.1 =
        Accounts.process_inherents_go (revertInherentOp ops block_height timestamp) t0
        (inherents.filter (fun i => i.is_pre_transactions)) 0
        (Accounts.prepare_receipts (Receipts.mk L)).2.2.1 := by
      intro t0
      exact Accounts.process_inherents_go_map_congr _ _ t0 0 _ _
        (fun j hj => hpre ((0 + j) % 65536))
    have e_recip : ∀ t0, Accounts.process_recipients_go
        (revertRecipientOp ops timestamp) block_height t0 transactions 0
        (Accounts.prepare_receipts (Receipts.mk
          (L ++ [Receipt.transaction k0 true d]))).2.1 =
        Accounts.process_recipients_go (revertRecipientOp ops timestamp) block_height t0
        transactions 0 (Accounts.prepare_receipts (Receipts.mk L)).2.1 := by
      intro t0
      exact Accounts.process_recipients_go_map_congr _ _ _ t0 0 _ _
        (fun j hj => hrc ((0 + j) % 65536))
    have e_send : ∀ t0, Accounts.process_senders_go
        (revertSenderOp ops timestamp) block_height t0 transactions 0
        (Accounts.prepare_receipts (Receipts.mk
          (L ++ [Receipt.transaction k0 true d]))).1 =
        Accounts.process_senders_go (revertSenderOp ops timestamp) block_height t0
        transactions 0 (Accounts.prepare_receipts (Receipts.mk L)).1 := by
      intro t0
      refine Accounts.process_senders_go_map_congr _ _ _ t0 0 _ _ ?_
      intro j hj
      refine hs ((0 + j) % 65536) ?_
      rw [Nat.zero_add]
      exact Ne.symm (hk0 j hj)
    simp only [Accounts.revert, Accounts.process_inherents, Accounts.process_recipients,
      Accounts.process_senders, e_post, e_pre, e_recip, e_send]
  · exact fun L k => (Accounts.prepare_receipts_spec L k).1
  · decide

/-- Witness for C10's surplus tolerance: an unmatched sender receipt at
index 7 appended to the empty bag does not change the concrete revert. -/
theorem C10_witness :
    Accounts.revert exOps exTrie [tx40] [] 1 2
      (Receipts.mk ([] ++ [Receipt.transaction 7 true [3]])) =
    Accounts.revert exOps exTrie [tx40] [] 1 2 (Receipts.mk []) :=
  C10_theorem.1 exOps exTrie [tx40] [] 1 2 [] 7 [3]
    (by
      intro j hj
      simp only [List.length_cons, List.length_nil] at hj
      have hj0 : j = 0 := by omega
      subst hj0
      decide)
